import Mathlib

/-!
# Verification of the enkk search scraper's core logic

A shallow embedding of `scraper_enkk.py`: the result canonicalizer
(`row_key`), the artifact path builder (`sanitize_filename`,
`build_pdf_path`), the detail-URL resolution (`extract_url_from_js`,
`detail_url_from_row`), the tiered PDF retrieval chain
(`extract_pdf_from_open_detail_page`, `download_pdf_for_row`) and the
breadth-first query-space explorer (`run`).

Rows are modelled as insertion-ordered association lists
(`List (String × String)`), matching Python dicts; browser interactions are
modelled by oracle environments plus explicit effect traces; the `while`
loop of `run` is modelled with explicit fuel together with a proof that a
computable potential of the queue is always sufficient fuel.

String primitives (trim, startswith, substring search, ordering) are
implemented over `List Char` by structural recursion so that every
definition evaluates inside the kernel.
-/

namespace Scraper

/-- A result row: an insertion-ordered mapping from column label to cell
text, as produced by `extract_rows`.  Keys beginning with `_` are the
retrieval hints (`_detail_text`, `_detail_href`, `_detail_onclick`,
`_detail_url`, `_row_index`, `_query`). -/
abbrev Row := List (String × String)

/-- Whitespace as stripped by Python `str.strip()` (the ASCII part of the
repertoire this scraper produces). -/
def isSpaceChar (c : Char) : Bool :=
  c = ' ' || c = '\t' || c = '\n' || c = '\r' || c.toNat = 11 || c.toNat = 12

/-- Strip `isSpaceChar` characters from both ends of a character list. -/
def trimChars (l : List Char) : List Char :=
  ((l.dropWhile isSpaceChar).reverse.dropWhile isSpaceChar).reverse

/-- `normalize(value)` of the source: `str(value).strip()`.  Values are
already strings here, so this is trimming surrounding whitespace. -/
def normalize (s : String) : String := String.mk (trimChars s.data)

/-- Python `s.startswith(pre)`. -/
def strStarts (s pre : String) : Bool := pre.data.isPrefixOf s.data

/-- Models Python `str.casefold` on one character, for the repertoire this
scraper works with: ASCII letters and the Hungarian accented letters are
lowered, everything else is untouched. -/
def casefoldChar (c : Char) : Char :=
  if 65 ≤ c.toNat ∧ c.toNat ≤ 90 then Char.ofNat (c.toNat + 32)
  else if c = 'Á' then 'á'
  else if c = 'É' then 'é'
  else if c = 'Í' then 'í'
  else if c = 'Ó' then 'ó'
  else if c = 'Ö' then 'ö'
  else if c = 'Ő' then 'ő'
  else if c = 'Ú' then 'ú'
  else if c = 'Ü' then 'ü'
  else if c = 'Ű' then 'ű'
  else c

/-- `s.casefold()` character by character. -/
def casefoldStr (s : String) : String := String.mk (s.data.map casefoldChar)

/-- Python's `needle in hay` substring test, on character lists. -/
def isSubstringList (needle : List Char) : List Char → Bool
  | [] => needle.isEmpty
  | c :: rest => needle.isPrefixOf (c :: rest) || isSubstringList needle rest

/-- Python's `needle in hay` on strings. -/
def strContains (hay needle : String) : Bool :=
  isSubstringList needle.data hay.data

/-- `any(marker in k.casefold() for marker in markers)`. -/
def keyMatchesAny (markers : List String) (k : String) : Bool :=
  markers.any (fun m => strContains (casefoldStr k) m)

/-- The registry-identifier vocabulary of `row_key`. -/
def key_markers : List String :=
  ["nyilvantartasi", "nyilvántartási", "pecsetszam", "pecsétszám",
   "azonosito", "azonosító"]

/-- The display-name vocabulary of `row_key`. -/
def name_markers : List String := ["nev", "név"]

/-- One field qualifies for the identifier scan of `row_key` when it is not
a hint field, its label matches the identifier vocabulary and its
normalized value is non-empty; the source loop returns at the first such
field and otherwise continues, so the loop is `List.find?` of this
predicate. -/
def isIdField (kv : String × String) : Bool :=
  !(strStarts kv.1 "_") && keyMatchesAny key_markers kv.1
    && !(normalize kv.2 == "")

/-- One field qualifies for the name scan of `row_key`: not a hint field,
label matching the name vocabulary, non-empty normalized value.  The source
loop assigns `name = normalize(v)` for every matching field and breaks on
the first non-empty one; assignments of empty strings leave the final value
`""`, so the final `name` is the value of `List.find?` of this predicate,
or `""`. -/
def isNameField (kv : String × String) : Bool :=
  !(strStarts kv.1 "_") && keyMatchesAny name_markers kv.1
    && !(normalize kv.2 == "")

/-- The non-hint projection of a row, as in
`{k: v for k, v in row.items() if not k.startswith("_")}`. -/
def canonicalPairs (row : Row) : Row :=
  row.filter (fun kv => !(strStarts kv.1 "_"))

/-- One character of a JSON string literal, as `json.dumps` with
`ensure_ascii=False` renders it. -/
def jsonEscapeChar (c : Char) : List Char :=
  if c = '"' then ['\\', '"']
  else if c = '\\' then ['\\', '\\']
  else if c = '\n' then ['\\', 'n']
  else if c = '\t' then ['\\', 't']
  else if c = '\r' then ['\\', 'r']
  else if c.toNat = 8 then ['\\', 'b']
  else if c.toNat = 12 then ['\\', 'f']
  else if c.toNat < 32 then
    ['\\', 'u', '0', '0',
     (if c.toNat / 16 < 10 then Char.ofNat (48 + c.toNat / 16)
      else Char.ofNat (87 + c.toNat / 16)),
     (if c.toNat % 16 < 10 then Char.ofNat (48 + c.toNat % 16)
      else Char.ofNat (87 + c.toNat % 16))]
  else [c]

/-- A JSON string literal. -/
def jsonStr (s : String) : String :=
  "\"" ++ String.mk (s.data.flatMap jsonEscapeChar) ++ "\""

/-- Code-point lexicographic strict order on character lists, which is how
Python compares the (duplicate-free) keys under `sort_keys=True`. -/
def charListLt : List Char → List Char → Bool
  | [], [] => false
  | [], _ :: _ => true
  | _ :: _, [] => false
  | a :: as, b :: bs =>
    if a.toNat < b.toNat then true
    else if b.toNat < a.toNat then false
    else charListLt as bs

/-- Strict key order on pairs. -/
def keyLtB (a b : String × String) : Bool := charListLt a.1.data b.1.data

/-- Insert a pair into a key-sorted pair list. -/
def insertPair (p : String × String) : Row → Row
  | [] => [p]
  | q :: rest => if keyLtB p q then p :: q :: rest else q :: insertPair p rest

/-- Key-sorted pair list, modelling `sort_keys=True` (dict keys are
duplicate-free, so any sort by key is the Python one). -/
def sortPairs : Row → Row
  | [] => []
  | p :: rest => insertPair p (sortPairs rest)

/-- Join a list of strings with a separator, as `sep.join(items)`. -/
def joinSep (sep : String) : List String → String
  | [] => ""
  | [x] => x
  | x :: y :: xs => x ++ sep ++ joinSep sep (y :: xs)

/-- `json.dumps(canonical, sort_keys=True, ensure_ascii=False)` for a
string-to-string dict: `\x7b"k": "v", ...\x7d` with keys sorted. -/
def jsonDumpsSorted (pairs : Row) : String :=
  "\x7b"
    ++ joinSep ", "
         ((sortPairs pairs).map (fun kv => jsonStr kv.1 ++ ": " ++ jsonStr kv.2))
    ++ "\x7d"

/-- `row_key(row)`: identity key of a row.  Either `id:<value>` from the
first non-hint field matching the registry-identifier vocabulary with a
non-empty value, or `name:<name>|row:<sorted serialization of the non-hint
fields>`. -/
def row_key (row : Row) : String :=
  match row.find? isIdField with
  | some kv => "id:" ++ normalize kv.2
  | none =>
    let name := match row.find? isNameField with
      | some kv => normalize kv.2
      | none => ""
    "name:" ++ name ++ "|row:" ++ jsonDumpsSorted (canonicalPairs row)

/-- Python dict assignment `d[k] = v` on an insertion-ordered association
list: overwrite in place when the key is present, append otherwise. -/
def dictInsert {α : Type} : List (String × α) → String → α → List (String × α)
  | [], k, v => [(k, v)]
  | (k', v') :: rest, k, v =>
    if k' = k then (k, v) :: rest else (k', v') :: dictInsert rest k v

/-- Python `k in d` on the association list. -/
def dictHasKey {α : Type} (d : List (String × α)) (k : String) : Bool :=
  d.any (fun kv => kv.1 == k)

/-- Python `d.get(k)`-style lookup with default. -/
def dictGetD {α : Type} (d : List (String × α)) (k : String) (dflt : α) : α :=
  match d.find? (fun kv => kv.1 == k) with
  | some kv => kv.2
  | none => dflt

/-- `first_row_value_by_markers(row, markers)`: the normalized value of the
first field whose label matches one of the markers and whose normalized
value is non-empty (the loop keeps going past empty matches), else `""`.
No hint-field skip here, faithfully to the source. -/
def first_row_value_by_markers (row : Row) (markers : List String) : String :=
  match row.find? (fun kv => keyMatchesAny markers kv.1 && !(normalize kv.2 == "")) with
  | some kv => normalize kv.2
  | none => ""

/-- Models the regex class `\w` (with `re.UNICODE`) for the character
repertoire this scraper encounters: ASCII letters and digits, underscore,
and the Hungarian accented letters; other code points are treated as
non-word characters. -/
def isWordChar (c : Char) : Bool :=
  c.isAlpha || c.isDigit || c = '_'
    || c ∈ ['á', 'é', 'í', 'ó', 'ö', 'ő', 'ú', 'ü', 'ű',
            'Á', 'É', 'Í', 'Ó', 'Ö', 'Ő', 'Ú', 'Ü', 'Ű']

/-- A character the regex `[^\w\-.]+` of `sanitize_filename` keeps. -/
def keepChar (c : Char) : Bool := isWordChar c || c = '-' || c = '.'

/-- Character-at-a-time scan for `re.sub(r"[^\w\-.]+", "_", value)`: the
flag records whether the previous character was part of a (already
replaced) run of non-kept characters. -/
def collapseAux : Bool → List Char → List Char
  | _, [] => []
  | inRun, c :: rest =>
    if keepChar c then c :: collapseAux false rest
    else if inRun then collapseAux true rest
    else '_' :: collapseAux true rest

/-- `re.sub(r"[^\w\-.]+", "_", value)`: every maximal run of non-kept
characters collapses to a single underscore. -/
def collapseNonKeep (l : List Char) : List Char := collapseAux false l

/-- Is the character stripped by `.strip("._")`? -/
def isDotUnd (c : Char) : Bool := c = '.' || c = '_'

/-- `.strip("._")` on a character list. -/
def stripDotUnd (l : List Char) : List Char :=
  ((l.dropWhile isDotUnd).reverse.dropWhile isDotUnd).reverse

/-- `sanitize_filename(value)`: substitute runs of disallowed characters by
`_`, strip leading/trailing `.` and `_`, truncate to 90 characters, and
fall back to `"unknown"` when nothing remains. -/
def sanitize_filename (s : String) : String :=
  let cleaned := stripDotUnd (collapseNonKeep s.data)
  if cleaned.take 90 = [] then "unknown" else String.mk (cleaned.take 90)

/-! ## SHA-1 (for the artifact filename digest)

`hashlib.sha1(seed.encode("utf-8")).hexdigest()[:10]`, over byte lists. -/

/-- 2^32. -/
def pow32 : Nat := 4294967296

/-- Rotate a 32-bit word (given as a `Nat` below 2^32) left by `n`. -/
def rotl32 (n x : Nat) : Nat := (x * 2 ^ n + x / 2 ^ (32 - n)) % pow32

/-- Big-endian 8-byte encoding of a number. -/
def be64 (n : Nat) : List Nat :=
  [n / 2 ^ 56 % 256, n / 2 ^ 48 % 256, n / 2 ^ 40 % 256, n / 2 ^ 32 % 256,
   n / 2 ^ 24 % 256, n / 2 ^ 16 % 256, n / 2 ^ 8 % 256, n % 256]

/-- SHA-1 message padding. -/
def sha1Pad (msg : List Nat) : List Nat :=
  msg ++ [128] ++ List.replicate ((119 - msg.length % 64) % 64) 0
    ++ be64 (8 * msg.length)

/-- Sequence of big-endian 32-bit words from a byte list. -/
def bytesToWords : List Nat → List Nat
  | b0 :: b1 :: b2 :: b3 :: rest =>
    (((b0 * 256 + b1) * 256 + b2) * 256 + b3) :: bytesToWords rest
  | _ => []

/-- Extend the 16 schedule words to 80. -/
def sha1Extend (w : List Nat) : List Nat :=
  (List.range 64).foldl
    (fun w i =>
      w ++ [rotl32 1 ((((w.getD (i + 13) 0).xor (w.getD (i + 8) 0)).xor
        (w.getD (i + 2) 0)).xor (w.getD i 0))])
    w

/-- One SHA-1 round. -/
def sha1Round (st : Nat × Nat × Nat × Nat × Nat) (i wi : Nat) :
    Nat × Nat × Nat × Nat × Nat :=
  let (a, b, c, d, e) := st
  let f :=
    if i < 20 then (b.land c).lor ((b.xor 4294967295).land d)
    else if i < 40 then (b.xor c).xor d
    else if i < 60 then ((b.land c).lor (b.land d)).lor (c.land d)
    else (b.xor c).xor d
  let k :=
    if i < 20 then 1518500249
    else if i < 40 then 1859775393
    else if i < 60 then 2400959708
    else 3395469782
  let temp := (rotl32 5 a + f + e + k + wi) % pow32
  (temp, a, rotl32 30 b, c, d)

/-- Compress one 64-byte block into the running state. -/
def sha1Compress (h : Nat × Nat × Nat × Nat × Nat) (block : List Nat) :
    Nat × Nat × Nat × Nat × Nat :=
  let ws := sha1Extend (bytesToWords block)
  let (h0, h1, h2, h3, h4) := h
  let fin := (ws.zip (List.range 80)).foldl
    (fun st p => sha1Round st p.2 p.1) h
  ((h0 + fin.1) % pow32, (h1 + fin.2.1) % pow32, (h2 + fin.2.2.1) % pow32,
   (h3 + fin.2.2.2.1) % pow32, (h4 + fin.2.2.2.2) % pow32)

/-- Fold the compression over `n` 64-byte blocks of the padded message
(whose length is `64 * n`). -/
def sha1BlocksN : Nat → (Nat × Nat × Nat × Nat × Nat) → List Nat →
    Nat × Nat × Nat × Nat × Nat
  | 0, h, _ => h
  | n + 1, h, bytes => sha1BlocksN n (sha1Compress h (bytes.take 64)) (bytes.drop 64)

/-- Lowercase hex digit. -/
def hexChar (n : Nat) : Char :=
  if n < 10 then Char.ofNat (48 + n) else Char.ofNat (87 + n)

/-- Eight lowercase hex digits of a 32-bit word. -/
def wordToHex (w : Nat) : List Char :=
  [hexChar (w / 2 ^ 28 % 16), hexChar (w / 2 ^ 24 % 16), hexChar (w / 2 ^ 20 % 16),
   hexChar (w / 2 ^ 16 % 16), hexChar (w / 2 ^ 12 % 16), hexChar (w / 2 ^ 8 % 16),
   hexChar (w / 2 ^ 4 % 16), hexChar (w % 16)]

/-- `hashlib.sha1(bytes).hexdigest()`. -/
def sha1Hex (msg : List Nat) : String :=
  let padded := sha1Pad msg
  let h := sha1BlocksN (padded.length / 64)
    (1732584193, 4023233417, 2562383102, 271733878, 3285377520) padded
  String.mk (wordToHex h.1 ++ wordToHex h.2.1 ++ wordToHex h.2.2.1
    ++ wordToHex h.2.2.2.1 ++ wordToHex h.2.2.2.2)

/-- UTF-8 encoding of one character. -/
def utf8Bytes (c : Char) : List Nat :=
  let n := c.toNat
  if n < 128 then [n]
  else if n < 2048 then [192 + n / 64, 128 + n % 64]
  else if n < 65536 then [224 + n / 4096, 128 + n / 64 % 64, 128 + n % 64]
  else [240 + n / 262144, 128 + n / 4096 % 64, 128 + n / 64 % 64, 128 + n % 64]

/-- `seed.encode("utf-8")` as a byte list. -/
def strToBytes (s : String) : List Nat := s.data.flatMap utf8Bytes

/-- `build_pdf_path(output_dir, row, detail_url)`: the deterministic
artifact destination
`<sanitized-id>_<sanitized-name>_<digest>.pdf` under `output_dir`, the
digest being the first 10 hex digits of the SHA-1 of
`row_key(row) + "|" + detail_url`.  `pathlib`'s `/` is string joining
with a slash for these relative names. -/
def build_pdf_path (outputDir : String) (row : Row) (detailUrl : String) : String :=
  let regId := first_row_value_by_markers row key_markers
  let docName := first_row_value_by_markers row name_markers
  let seed := row_key row ++ "|" ++ detailUrl
  let digest := String.mk ((sha1Hex (strToBytes seed)).data.take 10)
  let fileName := sanitize_filename (if regId = "" then "id" else regId) ++ "_"
    ++ sanitize_filename (if docName = "" then "orvos" else docName) ++ "_"
    ++ digest ++ ".pdf"
  outputDir ++ "/" ++ fileName

/-! ## Detail-URL resolution -/

/-- `rstrip("/")`: drop all trailing slashes. -/
def rstripSlash (s : String) : String :=
  String.mk (s.data.reverse.dropWhile (fun c => c = '/')).reverse

/-- The scheme part of a URL (up to `://`), used to model `urljoin`. -/
def schemeOf : List Char → List Char
  | [] => []
  | c :: rest => if c = ':' then [] else c :: schemeOf rest

/-- Characters of a URL up to (excluding) the first slash after the
`scheme://` introducer: the scheme and authority. -/
def schemeAuthAux : Nat → List Char → List Char
  | _, [] => []
  | slashes, c :: rest =>
    if c = '/' then
      if slashes < 2 then c :: schemeAuthAux (slashes + 1) rest else []
    else c :: schemeAuthAux slashes rest

/-- `scheme://authority` of an absolute URL. -/
def schemeAuthority (s : String) : String := String.mk (schemeAuthAux 0 s.data)

/-- The URL up to and including its last slash (the reference directory). -/
def dirOf (s : String) : String :=
  String.mk ((s.data.reverse.dropWhile (fun c => c ≠ '/')).reverse)

/-- Models `urllib.parse.urljoin` for the reference shapes this scraper
produces: absolute `http(s)` references replace the base; scheme-relative
(`//...`) references take the base's scheme; root-relative (`/...`)
references take the base's scheme and authority; other references resolve
against the base's directory.  Dot-segment and query/fragment handling is
not modelled. -/
def urljoin (base ref : String) : String :=
  if strStarts ref "http://" || strStarts ref "https://" then ref
  else if strStarts ref "//" then String.mk (schemeOf base.data) ++ ":" ++ ref
  else if strStarts ref "/" then schemeAuthority base ++ ref
  else dirOf base ++ ref

/-- A quote character of the regex `['"]([^'"]+)['"]`. -/
def isQuote (c : Char) : Bool := c = '\'' || c = '"'

/-- Scanner for `re.findall(r"['\"]([^'\"]+)['\"]", js)`.  The state is
`none` outside a candidate match and `some acc` (reversed accumulated
characters) after an opening quote: a quote after a non-empty accumulator
closes a match; a quote right after an opening quote restarts the match at
that quote, exactly as the regex engine advances; an unterminated
accumulator at the end of input is discarded. -/
def scanQuoted : Option (List Char) → List Char → List (List Char)
  | _, [] => []
  | none, c :: rest =>
    if isQuote c then scanQuoted (some []) rest else scanQuoted none rest
  | some acc, c :: rest =>
    if isQuote c then
      if acc.isEmpty then scanQuoted (some []) rest
      else acc.reverse :: scanQuoted none rest
    else scanQuoted (some (c :: acc)) rest

/-- All quoted string literals of a piece of JavaScript, in order. -/
def findQuoted (l : List Char) : List (List Char) := scanQuoted none l

/-- Does a candidate token carry one of the document/print markers? -/
def hasDocMarker (t : String) : Bool :=
  ["adatlap", "pdf", "print"].any (fun m => strContains (casefoldStr t) m)

/-- Is a token absolute or root-relative (handled by the early branch of
`extract_url_from_js` without a marker check)? -/
def isAbsToken (t : String) : Bool :=
  strStarts t "http://" || strStarts t "https://" || strStarts t "/"

/-- The per-token loop body of `extract_url_from_js` on the list of quoted
candidates. -/
def scanTokens (base : String) : List (List Char) → String
  | [] => ""
  | tok :: rest =>
    let t := normalize (String.mk tok)
    if t = "" then scanTokens base rest
    else if t = "/" ∨ t = "#" then scanTokens base rest
    else if isAbsToken t then
      if rstripSlash (urljoin base t) = rstripSlash base then scanTokens base rest
      else urljoin base t
    else if hasDocMarker t then urljoin base t
    else scanTokens base rest

/-- `extract_url_from_js(js_code, base_url)`: parse quoted string literals
out of an inline-script fragment and resolve the first acceptable one. -/
def extract_url_from_js (jsCode : String) (baseUrl : String) : String :=
  if jsCode = "" then "" else scanTokens baseUrl (findQuoted jsCode.data)

/-- `is_useless_detail_url(url, base_url)`: empty, placeholder, or
self-referential URLs are useless. -/
def is_useless_detail_url (url : String) (baseUrl : String) : Bool :=
  let u := normalize url
  if u = "" then true
  else if u = "/" ∨ u = "#" then true
  else if rstripSlash (urljoin baseUrl u) = rstripSlash baseUrl then true
  else false

/-- `detail_url_from_row(row, base_url)`: prefer the pre-resolved
`_detail_url`, else a non-`javascript:` `_detail_href`, else a URL parsed
out of the `_detail_onclick` script, else `""`. -/
def detail_url_from_row (row : Row) (baseUrl : String) : String :=
  let direct := normalize (dictGetD row "_detail_url" "")
  if direct ≠ "" ∧ ¬is_useless_detail_url direct baseUrl then direct
  else
    let href := normalize (dictGetD row "_detail_href" "")
    if href ≠ "" ∧ ¬strStarts (casefoldStr href) "javascript:"
        ∧ ¬is_useless_detail_url href baseUrl then
      urljoin baseUrl href
    else
      let onclick := normalize (dictGetD row "_detail_onclick" "")
      let parsed := extract_url_from_js onclick baseUrl
      if parsed ≠ "" then parsed else ""

/-! ## Artifact retrieval chain

The browser/network side is an oracle environment; every network or
page-interaction call the code would make is recorded in an effect trace.
-/

/-- One observable network or page-interaction call. -/
inductive Eff where
  | newPage : Eff
  | goto : String → Eff
  | fetch : String → Eff
  | clickPrint : Eff
  | renderPdf : Eff
  | openDetail : Eff
  | closePage : Eff
  | goBack : Eff
deriving DecidableEq, Repr

/-- Oracle for one opened detail view, consumed by
`extract_pdf_from_open_detail_page`: the outcomes of
`is_probably_detail_page` (first and second call), `detail_page.url`,
`try_download_pdf_by_url` per URL, `discover_pdf_links`, and
`try_click_print_download`. -/
structure ExtractEnv where
  isDetail : Bool
  isDetailSecond : Bool
  pageUrl : String
  fetchOk : String → Bool
  pdfLinks : List String
  clickOk : Bool

/-- Raw-fetch each discovered link until one succeeds: the first successful
URL (if any) and the trace of attempted fetches. -/
def tryLinks (fetchOk : String → Bool) : List String → Option String × List Eff
  | [] => (none, [])
  | u :: rest =>
    if fetchOk u then (some u, [Eff.fetch u])
    else
      let r := tryLinks fetchOk rest
      (r.1, Eff.fetch u :: r.2)

/-- `extract_pdf_from_open_detail_page`: validate the view, then tiers in
order — (i) raw-fetch the view's own URL, (ii) raw-fetch each discovered
embedded document link, (iii) trigger a print/download control, (iv) if
enabled (and the view still validates), render the page to PDF. -/
def extract_pdf_from_open_detail_page (env : ExtractEnv) (pagePdfFallback : Bool) :
    (Bool × String) × List Eff :=
  if env.isDetail = false then ((false, "nem_adatlap_oldal"), [])
  else
    let u := normalize env.pageUrl
    let aTried : List Eff := if u ≠ "" then [Eff.fetch u] else []
    if u ≠ "" ∧ env.fetchOk u = true then ((true, "detail_url_pdf"), aTried)
    else
      let b := tryLinks env.fetchOk env.pdfLinks
      let tr := aTried ++ b.2
      if b.1.isSome then ((true, "pdf_link"), tr)
      else
        let tr := tr ++ [Eff.clickPrint]
        if env.clickOk then ((true, "print_download"), tr)
        else if pagePdfFallback then
          if env.isDetailSecond = false then ((false, "nem_adatlap_oldal"), tr)
          else ((true, "page_pdf"), tr ++ [Eff.renderPdf])
        else ((false, "nincs_pdf_mod"), tr)

/-- Outcome of `open_detail_page_from_results_row`: a popup page, in-place
navigation of the shared tab, or a failure reason. -/
inductive OpenRes where
  | popup : OpenRes
  | sameTab : OpenRes
  | failed : String → OpenRes

/-- Oracle for one `download_pdf_for_row` invocation.  `Except.error ()`
in `gotoOutcome`/`openOutcome`, or `extractRaises = true`, model a
`PlaywrightError` raised inside the protected region (caught by the
function); `gotoOutcome = .ok true` models a navigation response whose
content type is PDF. -/
structure DlEnv where
  listingUrl : String
  fsExists : String → Bool
  gotoOutcome : Except Unit Bool
  openOutcome : Except Unit OpenRes
  extractRaises : Bool
  extractEnv : ExtractEnv

/-- `download_pdf_for_row`: resolve the candidate URL, compute the
destination path, return `(true, "letezik")` untouched when the artifact
already exists; otherwise navigate (or open the row's detail view) and run
the extraction tiers, reducing any raised `PlaywrightError` to
`(false, "playwright_hiba")`; pages opened for the retrieval are closed
and in-place navigation is undone on every exit path. -/
def download_pdf_for_row (env : DlEnv) (row : Row) (outputDir : String)
    (pagePdfFallback : Bool) : (Bool × String) × List Eff :=
  let detailUrl := detail_url_from_row row env.listingUrl
  let destination := build_pdf_path outputDir row
    (if detailUrl = "" then "row_click_fallback" else detailUrl)
  if env.fsExists destination then ((true, "letezik"), [])
  else if detailUrl ≠ "" then
    match env.gotoOutcome with
    | Except.error _ =>
      ((false, "playwright_hiba"), [Eff.newPage, Eff.goto detailUrl, Eff.closePage])
    | Except.ok true =>
      ((true, "kozvetlen_pdf"), [Eff.newPage, Eff.goto detailUrl, Eff.closePage])
    | Except.ok false =>
      if env.extractRaises then
        ((false, "playwright_hiba"), [Eff.newPage, Eff.goto detailUrl, Eff.closePage])
      else
        let r := extract_pdf_from_open_detail_page env.extractEnv pagePdfFallback
        (r.1, [Eff.newPage, Eff.goto detailUrl] ++ r.2 ++ [Eff.closePage])
  else
    match env.openOutcome with
    | Except.error _ => ((false, "playwright_hiba"), [Eff.openDetail])
    | Except.ok (OpenRes.failed reason) => ((false, reason), [Eff.openDetail])
    | Except.ok OpenRes.sameTab =>
      if env.extractRaises then ((false, "playwright_hiba"), [Eff.openDetail, Eff.goBack])
      else
        let r := extract_pdf_from_open_detail_page env.extractEnv pagePdfFallback
        (r.1, Eff.openDetail :: r.2 ++ [Eff.goBack])
    | Except.ok OpenRes.popup =>
      if env.extractRaises then ((false, "playwright_hiba"), [Eff.openDetail, Eff.closePage])
      else
        let r := extract_pdf_from_open_detail_page env.extractEnv pagePdfFallback
        (r.1, Eff.openDetail :: r.2 ++ [Eff.closePage])

/-! ## Query-space explorer (`run`)

Terms are `List Char` (so that lengths and extensions are structural).
The driver side of one term's processing is an oracle `TermEnv`; the PDF
chain is abstracted by `pdfResult` (its detailed model is
`download_pdf_for_row` above — that function absorbs every
`PlaywrightError`, so it is total from `run`'s point of view).
-/

/-- A search term. -/
abbrev Term := List Char

/-- Oracle for one term of the loop: is a name input present
(`fill_name` raises otherwise), did the slider auto-solve, did
`click_search` succeed (it raises otherwise), and the extraction result
`(rows, rowCount, totalHits)`, plus the abstracted per-row PDF outcome. -/
structure TermEnv where
  nameFieldPresent : Bool
  sliderSolved : Bool
  clickSearchOk : Bool
  rows : List Row
  rowCount : Nat
  totalHits : Option Nat
  pdfResult : Row → Bool × String

/-- The configuration surface of `run` that the core loop reads. -/
structure Config where
  alphabet : List Char
  maxDepth : Int
  splitThreshold : Int
  allowManualSlider : Bool
  downloadPdfs : Bool
  maxPdfsPerQuery : Int

/-- An overflow audit entry `(term, row_count, total_hits)`. -/
structure Overflow where
  term : Term
  row_count : Nat
  total_hits : Option Nat
deriving DecidableEq, Repr

/-- The mutable state of the `while queue:` loop.  `enqueuedLog` is a ghost
field recording every term ever placed on the queue (seeds included); it
receives exactly the queue appends and influences nothing. -/
structure RunState where
  queue : List Term
  visited : List Term
  collected : List (String × Row)
  overflows : List Overflow
  enqueuedLog : List Term
  pdfOk : Nat
  pdfFail : Nat
deriving DecidableEq, Repr

/-- `list(dict.fromkeys(list(args.alphabet)))`: duplicate-free alphabet,
first occurrences kept in order. -/
def dedupFirst {α : Type} [DecidableEq α] (seen : List α) : List α → List α
  | [] => []
  | c :: rest =>
    if c ∈ seen then dedupFirst seen rest else c :: dedupFirst (c :: seen) rest

/-- The deduplicated alphabet used for seeding and expansion. -/
def alpha (cfg : Config) : List Char := dedupFirst [] cfg.alphabet

/-- `fill_name`: locate the search input or raise. -/
def fill_name (nameFieldPresent : Bool) : Except String Unit :=
  if nameFieldPresent then Except.ok ()
  else Except.error "Nem talaltam nevet fogado input mezot."

/-- The truncation test of the loop:
`row_count >= split_threshold`, or a reported total exceeding it. -/
def truncFlag (cfg : Config) (rowCount : Nat) (totalHits : Option Nat) : Bool :=
  decide (cfg.splitThreshold ≤ (rowCount : Int))
    || (match totalHits with
        | some n => decide ((rowCount : Int) < (n : Int))
        | none => false)

/-- One row of the merge loop: mark new-unique before overwriting the
store entry. -/
def mergeRowsStep (acc : List (String × Row) × List Row) (row : Row) :
    List (String × Row) × List Row :=
  let key := row_key row
  let newRows := if dictHasKey acc.1 key then acc.2 else acc.2 ++ [row]
  (dictInsert acc.1 key row, newRows)

/-- The merge loop over one batch of rows: final store and the rows whose
key was previously unseen, in order. -/
def mergeRows (store : List (String × Row)) (rows : List Row) :
    List (String × Row) × List Row :=
  rows.foldl mergeRowsStep (store, [])

/-- Store-only merge (`collected[key] = row` for each row in order). -/
def mergeStore (store : List (String × Row)) (rows : List Row) :
    List (String × Row) :=
  rows.foldl (fun s r => dictInsert s (row_key r) r) store

/-- Count `(ok, fail)` of the per-row PDF outcomes, as
`download_pdfs_for_rows` does. -/
def countPdfResults (f : Row → Bool × String) (rows : List Row) : Nat × Nat :=
  rows.foldl
    (fun acc r => if (f r).1 then (acc.1 + 1, acc.2) else (acc.1, acc.2 + 1))
    (0, 0)

/-- `rows[:max_per_query] if max_per_query > 0 else rows`. -/
def selectRows (maxPerQuery : Int) (rows : List Row) : List Row :=
  if 0 < maxPerQuery then rows.take maxPerQuery.toNat else rows

/-- The loop body for one dequeued, unvisited term (after the `visited`
bookkeeping): search, classify, and either expand, record an overflow and
merge, or merge. -/
def stepTerm (cfg : Config) (e : TermEnv) (term : Term) (st : RunState) :
    Except String RunState :=
  match fill_name e.nameFieldPresent with
  | Except.error msg => Except.error msg
  | Except.ok _ =>
    if e.sliderSolved = false ∧ cfg.allowManualSlider = false then Except.ok st
    else if e.clickSearchOk = false then
      Except.error "Nem sikerult Kereses submit."
    else
      let isTruncated := truncFlag cfg e.rowCount e.totalHits
      if isTruncated = true ∧ ((term.length : Int) < cfg.maxDepth) then
        let children := (alpha cfg).map (fun c => term ++ [c])
        Except.ok { st with
          queue := st.queue ++ children,
          enqueuedLog := st.enqueuedLog ++ children }
      else
        let st1 :=
          if isTruncated then
            { st with overflows :=
                st.overflows ++ [⟨term, e.rowCount, e.totalHits⟩] }
          else st
        let rowsQ := e.rows.map (fun r => dictInsert r "_query" (String.mk term))
        let merged := mergeRows st1.collected rowsQ
        let counts :=
          if cfg.downloadPdfs ∧ merged.2 ≠ [] then
            countPdfResults e.pdfResult (selectRows cfg.maxPdfsPerQuery merged.2)
          else (0, 0)
        Except.ok { st1 with
          collected := merged.1,
          pdfOk := st1.pdfOk + counts.1,
          pdfFail := st1.pdfFail + counts.2 }

/-- The `while queue:` loop with explicit fuel: `none` means the fuel ran
out (never happens for the fuel `run` supplies, see `runLoop_isSome`). -/
def runLoop (cfg : Config) (env : Term → TermEnv) :
    Nat → RunState → Option (Except String RunState)
  | 0, st => if st.queue = [] then some (Except.ok st) else none
  | fuel + 1, st =>
    match st.queue with
    | [] => some (Except.ok st)
    | term :: rest =>
      if term ∈ st.visited then runLoop cfg env fuel { st with queue := rest }
      else
        match stepTerm cfg (env term) term
            { st with queue := rest, visited := term :: st.visited } with
        | Except.error msg => some (Except.error msg)
        | Except.ok st1 => runLoop cfg env fuel st1

/-- The seed queue: one single-character term per alphabet character. -/
def seeds (cfg : Config) : List Term := (alpha cfg).map (fun c => [c])

/-- The initial loop state. -/
def initState (cfg : Config) : RunState :=
  { queue := seeds cfg, visited := [], collected := [], overflows := [],
    enqueuedLog := seeds cfg, pdfOk := 0, pdfFail := 0 }

/-- The effective depth cap on queued terms: expanded terms are bounded by
`maxDepth`, seed terms always have length 1. -/
def depthBound (cfg : Config) : Nat := max 1 cfg.maxDepth.toNat

/-- Worst-case number of loop iterations a queued term can still cause,
counting itself: `(|alphabet| + 1) ^ (depthBound + 1 - length)`. -/
def wt (cfg : Config) (t : Term) : Nat :=
  ((alpha cfg).length + 1) ^ (depthBound cfg + 1 - t.length)

/-- Queue potential: a sufficient fuel for the loop. -/
def potential (cfg : Config) (q : List Term) : Nat := (q.map (wt cfg)).sum

/-- `run`: the whole explorer, from the seeded queue to the final state
(or the fatal error that aborted it). -/
def run (cfg : Config) (env : Term → TermEnv) : Option (Except String RunState) :=
  runLoop cfg env (potential cfg (seeds cfg)) (initState cfg)

/-- `list(collected.values())`, what `save_outputs` persists. -/
def outputRows (store : List (String × Row)) : List Row := store.map Prod.snd

/-- Association-list lookup (`collected[key]`, as an `Option`). -/
def dictLookup {α : Type} (d : List (String × α)) (k : String) : Option α :=
  (d.find? (fun kv => kv.1 == k)).map Prod.snd

/-- The last row of a sequence having a given canonical key. -/
def lastWithKey (rows : List Row) (k : String) : Option Row :=
  (rows.filter (fun r => row_key r == k)).getLast?

end Scraper

namespace Scraper

/-! ## Association-list and dedup lemmas -/

theorem dictLookup_nil {α : Type} (k : String) :
    dictLookup ([] : List (String × α)) k = none := rfl

theorem dictLookup_cons {α : Type} (k1 : String) (v1 : α)
    (tl : List (String × α)) (k : String) :
    dictLookup ((k1, v1) :: tl) k = if k1 = k then some v1 else dictLookup tl k := by
  by_cases h : k1 = k
  · subst h
    simp only [dictLookup]
    rw [List.find?_cons_of_pos _ (by simp)]
    simp
  · simp only [dictLookup]
    rw [List.find?_cons_of_neg _ (by simp [h])]
    simp [h]

theorem dictLookup_dictInsert {α : Type} (d : List (String × α)) (k k2 : String)
    (v : α) :
    dictLookup (dictInsert d k v) k2 = if k2 = k then some v else dictLookup d k2 := by
  induction d with
  | nil =>
    rw [dictInsert, dictLookup_cons, dictLookup_nil]
    by_cases h : k2 = k
    · simp [h]
    · simp [h, Ne.symm h]
  | cons hd tl ih =>
    obtain ⟨k1, v1⟩ := hd
    by_cases h1 : k1 = k
    · subst h1
      rw [dictInsert, if_pos rfl, dictLookup_cons, dictLookup_cons]
      by_cases h2 : k1 = k2
      · rw [if_pos h2, if_pos (Eq.symm h2)]
      · rw [if_neg h2, if_neg (fun hh => h2 (Eq.symm hh)), if_neg h2]
    · rw [dictInsert, if_neg h1, dictLookup_cons, dictLookup_cons, ih]
      by_cases h2 : k1 = k2 <;> by_cases h3 : k2 = k
      · exact absurd (h2.trans h3) h1
      · rw [if_pos h2, if_neg h3, if_pos h2]
      · rw [if_neg h2, if_pos h3, if_pos h3]
      · rw [if_neg h2, if_neg h3, if_neg h3, if_neg h2]

theorem dictHasKey_iff {α : Type} (d : List (String × α)) (k : String) :
    dictHasKey d k = true ↔ k ∈ d.map Prod.fst := by
  simp only [dictHasKey, List.any_eq_true, List.mem_map, beq_iff_eq]

theorem keys_dictInsert {α : Type} (d : List (String × α)) (k : String) (v : α) :
    (dictInsert d k v).map Prod.fst =
      if k ∈ d.map Prod.fst then d.map Prod.fst else d.map Prod.fst ++ [k] := by
  induction d with
  | nil => simp [dictInsert]
  | cons hd tl ih =>
    obtain ⟨k1, v1⟩ := hd
    by_cases h1 : k1 = k
    · subst h1; simp [dictInsert]
    · by_cases h2 : k ∈ tl.map Prod.fst <;>
        simp [dictInsert, h1, ih, h2, Ne.symm h1]

theorem nodup_keys_dictInsert {α : Type} (d : List (String × α)) (k : String)
    (v : α) (h : (d.map Prod.fst).Nodup) :
    ((dictInsert d k v).map Prod.fst).Nodup := by
  rw [keys_dictInsert]
  by_cases hk : k ∈ d.map Prod.fst
  · simpa [hk]
  · simpa [hk, List.nodup_append] using h

theorem mergeRows_fst (rows : List Row) :
    ∀ (store : List (String × Row)) (nr : List Row),
      (rows.foldl mergeRowsStep (store, nr)).1 = mergeStore store rows := by
  induction rows with
  | nil => intro store nr; rfl
  | cons r rest ih =>
    intro store nr
    simp only [List.foldl_cons, mergeStore]
    exact ih _ _

theorem mergeRows_eq_mergeStore (store : List (String × Row)) (rows : List Row) :
    (mergeRows store rows).1 = mergeStore store rows :=
  mergeRows_fst rows store []

theorem mergeStore_append_singleton (store : List (String × Row))
    (rows : List Row) (r : Row) :
    mergeStore store (rows ++ [r]) =
      dictInsert (mergeStore store rows) (row_key r) r := by
  simp [mergeStore, List.foldl_append]

theorem lastWithKey_append_singleton (rows : List Row) (r : Row) (k : String) :
    lastWithKey (rows ++ [r]) k =
      if row_key r = k then some r else lastWithKey rows k := by
  by_cases h : row_key r = k <;>
    simp [lastWithKey, List.filter_append, h, List.getLast?_concat]

theorem mem_dedupFirst {α : Type} [DecidableEq α] (l : List α) :
    ∀ (seen : List α) (a : α), a ∈ dedupFirst seen l ↔ a ∉ seen ∧ a ∈ l := by
  induction l with
  | nil => intro seen a; simp [dedupFirst]
  | cons c rest ih =>
    intro seen a
    by_cases hc : c ∈ seen
    · simp only [dedupFirst, if_pos hc, ih, List.mem_cons]
      constructor
      · rintro ⟨hna, hm⟩; exact ⟨hna, Or.inr hm⟩
      · rintro ⟨hna, rfl | hm⟩
        · exact absurd hc hna
        · exact ⟨hna, hm⟩
    · simp only [dedupFirst, if_neg hc, List.mem_cons, ih]
      constructor
      · rintro (rfl | ⟨hna, hm⟩)
        · exact ⟨hc, Or.inl rfl⟩
        · exact ⟨fun h => hna (Or.inr h), Or.inr hm⟩
      · rintro ⟨hna, rfl | hm⟩
        · exact Or.inl rfl
        · by_cases hac : a = c
          · exact Or.inl hac
          · exact Or.inr ⟨by simp [hac, hna], hm⟩

theorem nodup_dedupFirst {α : Type} [DecidableEq α] (l : List α) :
    ∀ seen : List α, (dedupFirst seen l).Nodup := by
  induction l with
  | nil => intro seen; simp [dedupFirst]
  | cons c rest ih =>
    intro seen
    by_cases hc : c ∈ seen
    · rw [dedupFirst, if_pos hc]; exact ih seen
    · rw [dedupFirst, if_neg hc]
      refine List.nodup_cons.mpr ⟨?_, ih (c :: seen)⟩
      intro hmem
      exact ((mem_dedupFirst rest (c :: seen) c).mp hmem).1 (List.mem_cons_self _ _)

theorem dedupFirst_append_singleton {α : Type} [DecidableEq α] (l : List α) :
    ∀ (seen : List α) (x : α),
      dedupFirst seen (l ++ [x]) =
        dedupFirst seen l ++ (if x ∈ seen ∨ x ∈ l then [] else [x]) := by
  induction l with
  | nil =>
    intro seen x
    by_cases h : x ∈ seen <;> simp [dedupFirst, h]
  | cons c rest ih =>
    intro seen x
    by_cases hc : c ∈ seen
    · rw [List.cons_append, dedupFirst, if_pos hc, ih, dedupFirst, if_pos hc]
      have hcx : x = c → x ∈ seen := fun h => h ▸ hc
      have hiff : (x ∈ seen ∨ x ∈ rest) ↔ (x ∈ seen ∨ x ∈ c :: rest) := by
        simp only [List.mem_cons]; tauto
      rw [if_congr hiff rfl rfl]
    · rw [List.cons_append, dedupFirst, if_neg hc, ih, dedupFirst, if_neg hc,
        List.cons_append]
      have hiff : (x ∈ c :: seen ∨ x ∈ rest) ↔ (x ∈ seen ∨ x ∈ c :: rest) := by
        simp only [List.mem_cons]; tauto
      rw [if_congr hiff rfl rfl]

theorem keys_mergeStore (rows : List Row) :
    (mergeStore [] rows).map Prod.fst = dedupFirst [] (rows.map row_key) := by
  induction rows using List.reverseRecOn with
  | nil => rfl
  | append_singleton rest r ih =>
    rw [mergeStore_append_singleton, keys_dictInsert, ih, List.map_append]
    simp only [List.map_cons, List.map_nil]
    rw [dedupFirst_append_singleton]
    by_cases h : row_key r ∈ rest.map row_key
    · rw [if_pos ((mem_dedupFirst _ _ _).mpr ⟨by simp, h⟩), if_pos (by simp [h]),
        List.append_nil]
    · rw [if_neg (fun hmem => h ((mem_dedupFirst _ _ _).mp hmem).2),
        if_neg (by simp [h])]

theorem dictLookup_mergeStore (rows : List Row) (k : String) :
    dictLookup (mergeStore [] rows) k = lastWithKey rows k := by
  induction rows using List.reverseRecOn with
  | nil => simp [mergeStore, lastWithKey, dictLookup_nil]
  | append_singleton rest r ih =>
    rw [mergeStore_append_singleton, dictLookup_dictInsert,
      lastWithKey_append_singleton, ih]
    by_cases h : row_key r = k
    · simp [h]
    · simp [h, Ne.symm h]

theorem map_snd_eq_filterMap_keys {α : Type} (store : List (String × α))
    (h : (store.map Prod.fst).Nodup) :
    store.map Prod.snd = (store.map Prod.fst).filterMap (dictLookup store) := by
  induction store with
  | nil => rfl
  | cons hd tl ih =>
    obtain ⟨k, v⟩ := hd
    simp only [List.map_cons, List.nodup_cons] at h ⊢
    rw [List.filterMap_cons]
    have hself : dictLookup ((k, v) :: tl) k = some v := by
      simp [dictLookup_cons]
    rw [hself]
    have hcongr : ∀ k2 ∈ tl.map Prod.fst,
        dictLookup ((k, v) :: tl) k2 = dictLookup tl k2 := by
      intro k2 hk2
      have : k ≠ k2 := fun hh => h.1 (hh ▸ hk2)
      simp [dictLookup_cons, this]
    rw [List.filterMap_congr hcongr, ← ih h.2]

theorem nodup_keys_mergeStore (rows : List Row) :
    ((mergeStore [] rows).map Prod.fst).Nodup := by
  rw [keys_mergeStore]; exact nodup_dedupFirst _ _

/-! ## Hint fields and the canonical key (C9) -/

theorem find?_dictInsert_of_false {p : String × String → Bool} (d : Row)
    (k v : String) (hp : ∀ w, p (k, w) = false) :
    (dictInsert d k v).find? p = d.find? p := by
  induction d with
  | nil =>
    rw [dictInsert, List.find?_cons_of_neg _ (by simp [hp v]), List.find?_nil]
  | cons hd tl ih =>
    obtain ⟨k1, v1⟩ := hd
    by_cases h1 : k1 = k
    · subst h1
      rw [dictInsert, if_pos rfl, List.find?_cons_of_neg _ (by simp [hp v]),
        List.find?_cons_of_neg _ (by simp [hp v1])]
    · rw [dictInsert, if_neg h1]
      cases hpk : p (k1, v1) with
      | true =>
        rw [List.find?_cons_of_pos _ hpk, List.find?_cons_of_pos _ hpk]
      | false =>
        rw [List.find?_cons_of_neg _ (by simp [hpk]),
          List.find?_cons_of_neg _ (by simp [hpk]), ih]

theorem canonicalPairs_dictInsert (d : Row) (k v : String)
    (hk : strStarts k "_" = true) :
    canonicalPairs (dictInsert d k v) = canonicalPairs d := by
  induction d with
  | nil => simp [dictInsert, canonicalPairs, List.filter_cons, hk]
  | cons hd tl ih =>
    obtain ⟨k1, v1⟩ := hd
    by_cases h1 : k1 = k
    · subst h1
      simp [dictInsert, canonicalPairs, List.filter_cons, hk]
    · simp only [dictInsert, if_neg h1, canonicalPairs, List.filter_cons]
      rw [show List.filter (fun kv => !strStarts kv.1 "_") (dictInsert tl k v)
            = List.filter (fun kv => !strStarts kv.1 "_") tl from ih]

theorem isIdField_of_hint (k w : String) (hk : strStarts k "_" = true) :
    isIdField (k, w) = false := by simp [isIdField, hk]

theorem isNameField_of_hint (k w : String) (hk : strStarts k "_" = true) :
    isNameField (k, w) = false := by simp [isNameField, hk]

/-! ## Order lemmas for the sorted serialization (C2) -/

theorem char_toNat_inj {a b : Char} (h : a.toNat = b.toNat) : a = b := by
  rcases a with ⟨⟨av, hav⟩, ha⟩
  rcases b with ⟨⟨bv, hbv⟩, hb⟩
  simp [Char.toNat, UInt32.toNat] at h
  subst h
  rfl

theorem charListLt_asymm :
    ∀ {a b : List Char}, charListLt a b = true → charListLt b a = false := by
  intro a
  induction a with
  | nil => intro b h; cases b <;> simp_all [charListLt]
  | cons x xs ih =>
    intro b h
    cases b with
    | nil => simp [charListLt] at h
    | cons y ys =>
      rw [charListLt] at h ⊢
      by_cases h1 : x.toNat < y.toNat
      · rw [if_neg (by omega), if_pos h1]
      · by_cases h2 : y.toNat < x.toNat
        · rw [if_neg h1, if_pos h2] at h
          exact absurd h (by simp)
        · rw [if_neg h1, if_neg h2] at h
          rw [if_neg h2, if_neg h1, ih h]

theorem charListLt_total_eq :
    ∀ {a b : List Char}, charListLt a b = false → charListLt b a = false → a = b := by
  intro a
  induction a with
  | nil => intro b h1 h2; cases b <;> simp_all [charListLt]
  | cons x xs ih =>
    intro b h1 h2
    cases b with
    | nil => simp [charListLt] at h2
    | cons y ys =>
      rw [charListLt] at h1 h2
      by_cases hxy : x.toNat < y.toNat
      · rw [if_pos hxy] at h1; simp at h1
      · by_cases hyx : y.toNat < x.toNat
        · rw [if_pos hyx] at h2; simp at h2
        · have hx : x = y := char_toNat_inj (by omega)
          subst hx
          rw [if_neg hxy, if_neg hxy] at h1 h2
          rw [ih h1 h2]

theorem charListLt_trans :
    ∀ {a b c : List Char}, charListLt a b = true → charListLt b c = true →
      charListLt a c = true := by
  intro a
  induction a with
  | nil =>
    intro b c h1 h2
    cases b with
    | nil => simp [charListLt] at h1
    | cons y ys =>
      cases c with
      | nil => simp [charListLt] at h2
      | cons z zs => simp [charListLt]
  | cons x xs ih =>
    intro b c h1 h2
    cases b with
    | nil => simp [charListLt] at h1
    | cons y ys =>
      cases c with
      | nil => simp [charListLt] at h2
      | cons z zs =>
        rw [charListLt] at h1 h2 ⊢
        by_cases hxy : x.toNat < y.toNat
        · by_cases hyz : y.toNat < z.toNat
          · rw [if_pos (by omega)]
          · rw [if_neg hyz] at h2
            by_cases hzy : z.toNat < y.toNat
            · rw [if_pos hzy] at h2; exact absurd h2 (by simp)
            · rw [if_pos (by omega)]
        · rw [if_neg hxy] at h1
          by_cases hyx : y.toNat < x.toNat
          · rw [if_pos hyx] at h1; exact absurd h1 (by simp)
          · rw [if_neg hyx] at h1
            by_cases hyz : y.toNat < z.toNat
            · rw [if_pos (by omega)]
            · rw [if_neg hyz] at h2
              by_cases hzy : z.toNat < y.toNat
              · rw [if_pos hzy] at h2; exact absurd h2 (by simp)
              · rw [if_neg hzy] at h2
                rw [if_neg (by omega), if_neg (by omega)]
                exact ih h1 h2

/-- The sortedness invariant `insertPair` maintains: later pairs are never
key-smaller than earlier ones. -/
def SortedKeys (l : Row) : Prop :=
  List.Pairwise (fun a b => keyLtB b a = false) l

theorem insertPair_perm (p : String × String) (l : Row) :
    (insertPair p l).Perm (p :: l) := by
  induction l with
  | nil => exact List.Perm.refl _
  | cons q rest ih =>
    rw [insertPair]
    by_cases h : keyLtB p q = true
    · rw [if_pos h]
    · rw [if_neg h]
      exact (ih.cons q).trans (List.Perm.swap p q rest)

theorem sortPairs_perm (l : Row) : (sortPairs l).Perm l := by
  induction l with
  | nil => exact List.Perm.refl _
  | cons p rest ih =>
    exact (insertPair_perm p (sortPairs rest)).trans (ih.cons p)

theorem sortedKeys_insertPair (p : String × String) (l : Row)
    (h : SortedKeys l) : SortedKeys (insertPair p l) := by
  induction l with
  | nil => simp [insertPair, SortedKeys]
  | cons q rest ih =>
    rw [insertPair]
    by_cases hlt : keyLtB p q = true
    · rw [if_pos hlt]
      refine List.pairwise_cons.mpr ⟨?_, h⟩
      intro y hy
      rcases List.mem_cons.mp hy with rfl | hy
      · exact charListLt_asymm hlt
      · have hqy : keyLtB y q = false :=
          (List.pairwise_cons.mp h).1 y hy
        cases hyp : keyLtB y p with
        | false => rfl
        | true => exact absurd (charListLt_trans hyp hlt) (by simp [keyLtB] at hqy ⊢; exact hqy)
    · rw [if_neg hlt]
      refine List.pairwise_cons.mpr ⟨?_, ih (List.pairwise_cons.mp h).2⟩
      intro y hy
      rcases List.mem_cons.mp ((insertPair_perm p rest).mem_iff.mp hy) with rfl | h1
      · exact eq_false_of_ne_true hlt
      · exact (List.pairwise_cons.mp h).1 y h1

theorem sortedKeys_sortPairs (l : Row) : SortedKeys (sortPairs l) := by
  induction l with
  | nil => exact List.Pairwise.nil
  | cons p rest ih => exact sortedKeys_insertPair p (sortPairs rest) ih

theorem eq_of_perm_of_sortedKeys :
    ∀ (l1 l2 : Row), l1.Perm l2 → (l1.map Prod.fst).Nodup →
      SortedKeys l1 → SortedKeys l2 → l1 = l2 := by
  intro l1
  induction l1 with
  | nil =>
    intro l2 hperm _ _ _
    cases l2 with
    | nil => rfl
    | cons b t2 => exact absurd hperm (by simp)
  | cons a t1 ih =>
    intro l2 hperm hnd hs1 hs2
    cases l2 with
    | nil => exact absurd hperm (by simp)
    | cons b t2 =>
      have hnd2 : ((b :: t2).map Prod.fst).Nodup :=
        ((hperm.map Prod.fst).nodup_iff).mp hnd
      have hab : a = b := by
        rcases List.mem_cons.mp (hperm.subset (List.mem_cons_self a t1)) with
          h | ha2
        · exact h
        · rcases List.mem_cons.mp (hperm.symm.subset (List.mem_cons_self b t2))
            with h | hb1
          · exact h.symm
          · have h1 : charListLt a.1.data b.1.data = false :=
              (List.pairwise_cons.mp hs2).1 a ha2
            have h2 : charListLt b.1.data a.1.data = false :=
              (List.pairwise_cons.mp hs1).1 b hb1
            have hkey : a.1 = b.1 := String.ext (charListLt_total_eq h1 h2)
            exfalso
            have hmm : b.1 ∈ t2.map Prod.fst := List.mem_map.mpr ⟨a, ha2, hkey⟩
            have hnd2a : (b.1 :: t2.map Prod.fst).Nodup := by simpa using hnd2
            exact (List.nodup_cons.mp hnd2a).1 hmm
      subst hab
      have ht : t1.Perm t2 := hperm.cons_inv
      have hnd1 : (t1.map Prod.fst).Nodup :=
        (List.nodup_cons.mp (show (a.1 :: t1.map Prod.fst).Nodup by
          simpa using hnd)).2
      rw [ih t2 ht hnd1 hs1.of_cons hs2.of_cons]

theorem sortPairs_eq_of_perm (l1 l2 : Row) (h : l1.Perm l2)
    (hnd : (l1.map Prod.fst).Nodup) : sortPairs l1 = sortPairs l2 := by
  refine eq_of_perm_of_sortedKeys _ _
    ((sortPairs_perm l1).trans (h.trans (sortPairs_perm l2).symm)) ?_
    (sortedKeys_sortPairs l1) (sortedKeys_sortPairs l2)
  exact (((sortPairs_perm l1).map Prod.fst).nodup_iff).mpr hnd

theorem find?_eq_of_perm_of_unique {p : String × String → Bool} {l1 l2 : Row}
    (hperm : l1.Perm l2)
    (huniq : ∀ a ∈ l1, ∀ b ∈ l1, p a = true → p b = true → a = b) :
    l1.find? p = l2.find? p := by
  cases h1 : l1.find? p with
  | none =>
    cases h2 : l2.find? p with
    | none => rfl
    | some b =>
      have hb := List.find?_some h2
      have hbm := hperm.symm.subset (List.mem_of_find?_eq_some h2)
      exact absurd hb (List.find?_eq_none.mp h1 b hbm)
  | some a =>
    have ha := List.find?_some h1
    have ham := List.mem_of_find?_eq_some h1
    cases h2 : l2.find? p with
    | none =>
      exact absurd ha (List.find?_eq_none.mp h2 a (hperm.subset ham))
    | some b =>
      have hb := List.find?_some h2
      have hbm := hperm.symm.subset (List.mem_of_find?_eq_some h2)
      rw [huniq a ham b hbm ha hb]

/-! ## Claim theorems: canonicalizer and record store -/

/-- **C2** (counterexample).  Two rows carrying identical non-hint
field-to-value mappings in different column order can receive different
canonical keys: with two identifier-marked columns, `row_key` returns the
value of whichever column comes first. -/
theorem row_key_column_order_counterexample :
    List.Perm [("azonosito", "1"), ("pecsetszam", "2")]
        [("pecsetszam", "2"), ("azonosito", "1")]
      ∧ row_key [("azonosito", "1"), ("pecsetszam", "2")]
          ≠ row_key [("pecsetszam", "2"), ("azonosito", "1")] :=
  ⟨List.Perm.swap _ _ _, by decide⟩

/-- **C2** (amended).  `row_key` is invariant under permutation of a row's
columns provided the row's labels are duplicate-free, at most one field
qualifies for the identifier scan, and at most one field qualifies for the
name scan.  (With two qualifying identifier or name fields the scans are
order-dependent, see `row_key_column_order_counterexample`.) -/
theorem row_key_perm_invariant_unique_markers (r1 r2 : Row) (hperm : r1.Perm r2)
    (hnd : (r1.map Prod.fst).Nodup)
    (hid : ∀ a ∈ r1, ∀ b ∈ r1, isIdField a = true → isIdField b = true → a = b)
    (hname : ∀ a ∈ r1, ∀ b ∈ r1,
      isNameField a = true → isNameField b = true → a = b) :
    row_key r1 = row_key r2 := by
  have hsub : List.Sublist ((canonicalPairs r1).map Prod.fst) (r1.map Prod.fst) :=
    (List.filter_sublist r1).map Prod.fst
  have hsort : sortPairs (canonicalPairs r1) = sortPairs (canonicalPairs r2) :=
    sortPairs_eq_of_perm _ _ (hperm.filter _) (List.Nodup.sublist hsub hnd)
  have hjson : jsonDumpsSorted (canonicalPairs r1)
      = jsonDumpsSorted (canonicalPairs r2) := by
    unfold jsonDumpsSorted
    rw [hsort]
  unfold row_key
  rw [find?_eq_of_perm_of_unique hperm hid,
    find?_eq_of_perm_of_unique hperm hname, hjson]

theorem row_key_perm_invariant_unique_markers_witness :
    row_key [("Nev", "X"), ("Cim", "Y")] = row_key [("Cim", "Y"), ("Nev", "X")] :=
  row_key_perm_invariant_unique_markers _ _ (by decide) (by decide) (by decide)
    (by decide)

/-- **C9**.  Attaching any underscore-prefixed hint field (such as the
originating term in `_query`) to a row never changes its canonical key:
both scans of `row_key` skip hint fields, and the serialized canonical
form excludes them, so a record rediscovered under a different term maps
to the same Record Store entry. -/
theorem row_key_ignores_hint_fields (row : Row) (k v : String)
    (hk : strStarts k "_" = true) :
    row_key (dictInsert row k v) = row_key row := by
  unfold row_key
  rw [find?_dictInsert_of_false row k v (fun w => isIdField_of_hint k w hk),
    find?_dictInsert_of_false row k v (fun w => isNameField_of_hint k w hk),
    canonicalPairs_dictInsert row k v hk]

theorem row_key_ignores_hint_fields_witness :
    strStarts "_query" "_" = true
      ∧ row_key (dictInsert [("Nev", "A")] "_query" "ab") = row_key [("Nev", "A")] :=
  ⟨by decide, row_key_ignores_hint_fields [("Nev", "A")] "_query" "ab" (by decide)⟩

/-- **C3**.  For every sequence of merged rows, the Record Store holds
exactly one entry per canonical key (its keys are duplicate-free and are
the merged rows' keys in first-insertion order), each entry equals the
last-processed row with that key, and the persisted output
(`list(collected.values())`) enumerates those last rows in first-insertion
key order; the store computed alongside the new-unique tracking of the
merge loop is that same store. -/
theorem record_store_last_write_wins (rows : List Row) :
    ((mergeStore [] rows).map Prod.fst).Nodup
      ∧ (∀ k, dictLookup (mergeStore [] rows) k = lastWithKey rows k)
      ∧ (mergeStore [] rows).map Prod.fst = dedupFirst [] (rows.map row_key)
      ∧ outputRows (mergeStore [] rows)
          = (dedupFirst [] (rows.map row_key)).filterMap (lastWithKey rows)
      ∧ ∀ store, (mergeRows store rows).1 = mergeStore store rows := by
  refine ⟨nodup_keys_mergeStore rows, fun k => dictLookup_mergeStore rows k,
    keys_mergeStore rows, ?_, fun store => mergeRows_eq_mergeStore store rows⟩
  unfold outputRows
  rw [← keys_mergeStore, map_snd_eq_filterMap_keys _ (nodup_keys_mergeStore rows)]
  exact List.filterMap_congr fun k _ => dictLookup_mergeStore rows k

/-! ## Claim theorem: artifact filenames (C10) -/

theorem keepChar_collapseAux :
    ∀ (l : List Char) (b : Bool), ∀ c ∈ collapseAux b l, keepChar c = true := by
  intro l
  induction l with
  | nil => intro b c hc; simp [collapseAux] at hc
  | cons x xs ih =>
    intro b c hc
    rw [collapseAux] at hc
    by_cases hx : keepChar x
    · rw [if_pos hx] at hc
      rcases List.mem_cons.mp hc with rfl | hc
      · exact hx
      · exact ih false c hc
    · rw [if_neg hx] at hc
      cases b with
      | true =>
        rw [if_pos rfl] at hc
        exact ih true c hc
      | false =>
        rcases List.mem_cons.mp (by simpa using hc) with rfl | hc2
        · decide
        · exact ih true c hc2

theorem mem_of_mem_dropWhile {p : Char → Bool} :
    ∀ {l : List Char} {c : Char}, c ∈ l.dropWhile p → c ∈ l := by
  intro l
  induction l with
  | nil => intro c h; simp at h
  | cons x xs ih =>
    intro c h
    rw [List.dropWhile_cons] at h
    by_cases hx : p x
    · rw [if_pos hx] at h
      exact List.mem_cons_of_mem _ (ih h)
    · rw [if_neg hx] at h
      exact h

theorem mem_of_stripDotUnd {c : Char} {l : List Char} (h : c ∈ stripDotUnd l) :
    c ∈ l := by
  unfold stripDotUnd at h
  rw [List.mem_reverse] at h
  have h2 := mem_of_mem_dropWhile h
  rw [List.mem_reverse] at h2
  exact mem_of_mem_dropWhile h2

theorem sanitize_filename_chars (s : String) :
    ∀ c ∈ (sanitize_filename s).data, keepChar c = true := by
  unfold sanitize_filename
  by_cases h : (stripDotUnd (collapseNonKeep s.data)).take 90 = []
  · rw [if_pos h]
    decide
  · rw [if_neg h]
    intro c hc
    exact keepChar_collapseAux s.data false c
      (mem_of_stripDotUnd (List.mem_of_mem_take hc))

/-- **C10**.  Artifact names are always well-formed: `sanitize_filename`
yields a non-empty string of at most 90 characters drawn from word
characters, hyphens and dots only, falling back to `"unknown"` when
nothing survives the substitution and stripping; and `build_pdf_path`
composes `<sanitized-id>_<sanitized-name>_<digest>.pdf` under the output
directory, the digest being exactly the first 10 hex digits of the SHA-1
of the canonical key, `"|"`, and the URL. -/
theorem build_pdf_path_wellformed :
    (∀ s : String,
        1 ≤ (sanitize_filename s).length
          ∧ (sanitize_filename s).length ≤ 90
          ∧ ∀ c ∈ (sanitize_filename s).data,
              isWordChar c = true ∨ c = '-' ∨ c = '.')
      ∧ (∀ s : String, stripDotUnd (collapseNonKeep s.data) = [] →
          sanitize_filename s = "unknown")
      ∧ ∀ (dir : String) (row : Row) (url : String),
          build_pdf_path dir row url
            = dir ++ "/"
              ++ (sanitize_filename
                    (if first_row_value_by_markers row key_markers = "" then "id"
                     else first_row_value_by_markers row key_markers)
                  ++ "_"
                  ++ sanitize_filename
                      (if first_row_value_by_markers row name_markers = "" then "orvos"
                       else first_row_value_by_markers row name_markers)
                  ++ "_"
                  ++ String.mk
                      ((sha1Hex (strToBytes (row_key row ++ "|" ++ url))).data.take 10)
                  ++ ".pdf") := by
  refine ⟨fun s => ⟨?_, ?_, ?_⟩, fun s h => ?_, fun dir row url => rfl⟩
  · unfold sanitize_filename
    by_cases h : (stripDotUnd (collapseNonKeep s.data)).take 90 = []
    · rw [if_pos h]; decide
    · rw [if_neg h]
      exact Nat.one_le_iff_ne_zero.mpr
        (fun hz => h (List.eq_nil_of_length_eq_zero hz))
  · unfold sanitize_filename
    by_cases h : (stripDotUnd (collapseNonKeep s.data)).take 90 = []
    · rw [if_pos h]; decide
    · rw [if_neg h]
      exact List.length_take_le 90 _
  · intro c hc
    have hk := sanitize_filename_chars s c hc
    simp only [keepChar, Bool.or_eq_true, decide_eq_true_eq] at hk
    tauto
  · unfold sanitize_filename
    rw [h]
    simp

theorem build_pdf_path_wellformed_witness :
    stripDotUnd (collapseNonKeep ("!?" : String).data) = []
      ∧ sanitize_filename "!?" = "unknown" :=
  ⟨by decide, build_pdf_path_wellformed.2.1 "!?" (by decide)⟩

/-! ## Claim theorems: retrieval chain (C4, C5) -/

/-- **C4**.  Artifact retrieval is idempotent against durable storage: when
the destination file derived from the canonical key and the resolved URL
(or the sentinel) already exists, `download_pdf_for_row` returns success
with the `"letezik"` reason and performs zero network or page-interaction
calls (an empty effect trace). -/
theorem download_pdf_for_row_idempotent (env : DlEnv) (row : Row)
    (outputDir : String) (fb : Bool)
    (h : env.fsExists (build_pdf_path outputDir row
      (if detail_url_from_row row env.listingUrl = "" then "row_click_fallback"
       else detail_url_from_row row env.listingUrl)) = true) :
    download_pdf_for_row env row outputDir fb = ((true, "letezik"), []) := by
  unfold download_pdf_for_row
  simp only [h]
  simp

/-- A sample extraction oracle on which every tier fails. -/
def extractEnvAllFail : ExtractEnv where
  isDetail := true
  isDetailSecond := true
  pageUrl := ""
  fetchOk := fun _ => false
  pdfLinks := []
  clickOk := false

/-- A sample retrieval oracle whose durable storage already holds every
destination path. -/
def dlEnvExisting : DlEnv where
  listingUrl := "https://kereso.enkk.hu/"
  fsExists := fun _ => true
  gotoOutcome := Except.ok false
  openOutcome := Except.ok OpenRes.popup
  extractRaises := false
  extractEnv := extractEnvAllFail

theorem download_pdf_for_row_idempotent_witness :
    download_pdf_for_row dlEnvExisting [("Nev", "X")] "data/pdfs" false
      = ((true, "letezik"), []) :=
  download_pdf_for_row_idempotent _ _ _ _ rfl

theorem tryLinks_eq (f : String → Bool) (links : List String) :
    tryLinks f links =
      match links.find? (fun u => f u) with
      | some u => (some u,
          (links.takeWhile (fun w => !f w)).map Eff.fetch ++ [Eff.fetch u])
      | none => (none, links.map Eff.fetch) := by
  induction links with
  | nil => rfl
  | cons u rest ih =>
    rw [tryLinks]
    cases hf : f u with
    | true =>
      rw [List.find?_cons_of_pos _ hf]
      simp [List.takeWhile_cons, hf]
    | false =>
      rw [List.find?_cons_of_neg _ (by simp [hf]), if_neg (by simp), ih]
      cases hrest : rest.find? (fun w => f w) with
      | some v => simp [List.takeWhile_cons, hf]
      | none => simp [hf]

/-- **C5**.  On an opened detail view the extraction first validates the
page, failing terminally with `"nem_adatlap_oldal"` when validation
rejects it; otherwise the fallback tiers run in order with first success
winning: (i) raw-fetch the view's own URL, (ii) raw-fetch each discovered
embedded document link in order, (iii) trigger the print/download control,
(iv) only when enabled (and the view still validates), render the page;
exhausting every tier yields `(false, "nincs_pdf_mod")`.  The effect
traces exhibit the attempts each case performed. -/
theorem extract_pdf_tier_order (env : ExtractEnv) (fb : Bool) :
    (env.isDetail = false →
      extract_pdf_from_open_detail_page env fb
        = ((false, "nem_adatlap_oldal"), []))
    ∧ (env.isDetail = true → normalize env.pageUrl ≠ "" →
        env.fetchOk (normalize env.pageUrl) = true →
        extract_pdf_from_open_detail_page env fb
          = ((true, "detail_url_pdf"), [Eff.fetch (normalize env.pageUrl)]))
    ∧ (env.isDetail = true →
        ¬(normalize env.pageUrl ≠ "" ∧ env.fetchOk (normalize env.pageUrl) = true) →
        ∀ v, env.pdfLinks.find? (fun w => env.fetchOk w) = some v →
        extract_pdf_from_open_detail_page env fb
          = ((true, "pdf_link"),
            (if normalize env.pageUrl ≠ "" then [Eff.fetch (normalize env.pageUrl)]
             else [])
              ++ ((env.pdfLinks.takeWhile (fun w => !env.fetchOk w)).map Eff.fetch
                ++ [Eff.fetch v])))
    ∧ (env.isDetail = true →
        ¬(normalize env.pageUrl ≠ "" ∧ env.fetchOk (normalize env.pageUrl) = true) →
        env.pdfLinks.find? (fun w => env.fetchOk w) = none →
        env.clickOk = true →
        extract_pdf_from_open_detail_page env fb
          = ((true, "print_download"),
            (if normalize env.pageUrl ≠ "" then [Eff.fetch (normalize env.pageUrl)]
             else [])
              ++ env.pdfLinks.map Eff.fetch ++ [Eff.clickPrint]))
    ∧ (env.isDetail = true →
        ¬(normalize env.pageUrl ≠ "" ∧ env.fetchOk (normalize env.pageUrl) = true) →
        env.pdfLinks.find? (fun w => env.fetchOk w) = none →
        env.clickOk = false → fb = true → env.isDetailSecond = true →
        extract_pdf_from_open_detail_page env fb
          = ((true, "page_pdf"),
            ((if normalize env.pageUrl ≠ "" then [Eff.fetch (normalize env.pageUrl)]
              else [])
              ++ env.pdfLinks.map Eff.fetch ++ [Eff.clickPrint]) ++ [Eff.renderPdf]))
    ∧ (env.isDetail = true →
        ¬(normalize env.pageUrl ≠ "" ∧ env.fetchOk (normalize env.pageUrl) = true) →
        env.pdfLinks.find? (fun w => env.fetchOk w) = none →
        env.clickOk = false → fb = true → env.isDetailSecond = false →
        extract_pdf_from_open_detail_page env fb
          = ((false, "nem_adatlap_oldal"),
            (if normalize env.pageUrl ≠ "" then [Eff.fetch (normalize env.pageUrl)]
             else [])
              ++ env.pdfLinks.map Eff.fetch ++ [Eff.clickPrint]))
    ∧ (env.isDetail = true →
        ¬(normalize env.pageUrl ≠ "" ∧ env.fetchOk (normalize env.pageUrl) = true) →
        env.pdfLinks.find? (fun w => env.fetchOk w) = none →
        env.clickOk = false → fb = false →
        extract_pdf_from_open_detail_page env fb
          = ((false, "nincs_pdf_mod"),
            (if normalize env.pageUrl ≠ "" then [Eff.fetch (normalize env.pageUrl)]
             else [])
              ++ env.pdfLinks.map Eff.fetch ++ [Eff.clickPrint])) := by
  refine ⟨?_, ?_, ?_, ?_, ?_, ?_, ?_⟩
  · intro h
    unfold extract_pdf_from_open_detail_page
    rw [if_pos h]
  · intro hd hu hf
    unfold extract_pdf_from_open_detail_page
    rw [if_neg (by simp [hd]), if_pos ⟨hu, hf⟩, if_pos hu]
  · intro hd hA v hv
    unfold extract_pdf_from_open_detail_page
    rw [if_neg (by simp [hd]), if_neg hA, tryLinks_eq, hv]
    simp [List.append_assoc]
  · intro hd hA hnone hclick
    unfold extract_pdf_from_open_detail_page
    rw [if_neg (by simp [hd]), if_neg hA, tryLinks_eq, hnone]
    simp [hclick, List.append_assoc]
  · intro hd hA hnone hclick hfb hsecond
    unfold extract_pdf_from_open_detail_page
    rw [if_neg (by simp [hd]), if_neg hA, tryLinks_eq, hnone]
    simp [hclick, hfb, hsecond, List.append_assoc]
  · intro hd hA hnone hclick hfb hsecond
    unfold extract_pdf_from_open_detail_page
    rw [if_neg (by simp [hd]), if_neg hA, tryLinks_eq, hnone]
    simp [hclick, hfb, hsecond, List.append_assoc]
  · intro hd hA hnone hclick hfb
    unfold extract_pdf_from_open_detail_page
    rw [if_neg (by simp [hd]), if_neg hA, tryLinks_eq, hnone]
    simp [hclick, hfb, List.append_assoc]

/-- A sample extraction oracle whose page fails validation. -/
def extractEnvNotDetail : ExtractEnv where
  isDetail := false
  isDetailSecond := false
  pageUrl := "u"
  fetchOk := fun _ => false
  pdfLinks := []
  clickOk := false

theorem extract_pdf_tier_order_witness :
    extract_pdf_from_open_detail_page extractEnvNotDetail false
      = ((false, "nem_adatlap_oldal"), []) :=
  (extract_pdf_tier_order extractEnvNotDetail false).1 rfl

/-! ## Claim theorems: detail-URL resolution (C6) -/

/-- Acceptance test mirrored from the token loop of `extract_url_from_js`:
non-empty, not a placeholder, and either absolute/root-relative resolving
away from the base, or marker-bearing. -/
def acceptedTok (base : String) (tok : List Char) : Bool :=
  let t := normalize (String.mk tok)
  if t = "" then false
  else if t = "/" ∨ t = "#" then false
  else if isAbsToken t = true then
    decide (¬rstripSlash (urljoin base t) = rstripSlash base)
  else hasDocMarker t

theorem scanTokens_eq (base : String) (toks : List (List Char)) :
    scanTokens base toks
      = match toks.find? (acceptedTok base) with
        | some tok => urljoin base (normalize (String.mk tok))
        | none => "" := by
  induction toks with
  | nil => rfl
  | cons tok rest ih =>
    simp only [scanTokens]
    by_cases h1 : normalize (String.mk tok) = ""
    · rw [if_pos h1, ih,
        List.find?_cons_of_neg _ (by simp [acceptedTok, h1])]
    · rw [if_neg h1]
      by_cases h2 : normalize (String.mk tok) = "/" ∨ normalize (String.mk tok) = "#"
      · rw [if_pos h2, ih,
          List.find?_cons_of_neg _ (by simp [acceptedTok, h1, h2])]
      · rw [if_neg h2]
        by_cases h3 : isAbsToken (normalize (String.mk tok)) = true
        · rw [if_pos h3]
          by_cases h4 : rstripSlash (urljoin base (normalize (String.mk tok)))
              = rstripSlash base
          · rw [if_pos h4, ih,
              List.find?_cons_of_neg _ (by simp [acceptedTok, h1, h2, h3, h4])]
          · rw [if_neg h4,
              List.find?_cons_of_pos _ (by simp [acceptedTok, h1, h2, h3, h4])]
        · rw [if_neg h3]
          by_cases h5 : hasDocMarker (normalize (String.mk tok)) = true
          · rw [if_pos h5,
              List.find?_cons_of_pos _ (by simp [acceptedTok, h1, h2, h3, h5])]
          · rw [if_neg h5, ih,
              List.find?_cons_of_neg _ (by simp [acceptedTok, h1, h2, h3, h5])]

/-- **C6** (amended).  From an inline-script hint, `extract_url_from_js`
returns the resolution of the first quoted token that is either (a)
absolute or root-relative and resolves away from the base URL — with no
marker check — or (b) otherwise carries a document/print marker; fragments
with no such token resolve to `""`.  (The original claim — that every
returned URL carries a marker — fails on absolute URLs, see
`extract_url_from_js_marker_counterexample`.) -/
theorem extract_url_from_js_characterization (js base : String) :
    (extract_url_from_js js base
      = match (findQuoted js.data).find? (acceptedTok base) with
        | some tok => urljoin base (normalize (String.mk tok))
        | none => "")
    ∧ ((∀ tok ∈ findQuoted js.data, acceptedTok base tok = false) →
        extract_url_from_js js base = "")
    ∧ ∀ tok ∈ findQuoted js.data, acceptedTok base tok = true →
        isAbsToken (normalize (String.mk tok)) = true
          ∨ hasDocMarker (normalize (String.mk tok)) = true := by
  have hmain : extract_url_from_js js base
      = match (findQuoted js.data).find? (acceptedTok base) with
        | some tok => urljoin base (normalize (String.mk tok))
        | none => "" := by
    unfold extract_url_from_js
    by_cases hjs : js = ""
    · subst hjs
      rfl
    · rw [if_neg hjs, scanTokens_eq]
  refine ⟨hmain, fun hall => ?_, fun tok _ hacc => ?_⟩
  · rw [hmain, List.find?_eq_none.mpr (fun tok hmem => by simp [hall tok hmem])]
  · by_cases h3 : isAbsToken (normalize (String.mk tok)) = true
    · exact Or.inl h3
    · refine Or.inr ?_
      by_contra h5
      simp [acceptedTok, h3, h5] at hacc

theorem extract_url_from_js_characterization_witness :
    extract_url_from_js "f('x')" "https://kereso.enkk.hu/" = "" :=
  (extract_url_from_js_characterization "f('x')" "https://kereso.enkk.hu/").2.1
    (by decide)

/-- **C6** (counterexample).  A URL returned from an inline-script hint
need not carry a document/print marker: quoted absolute URLs are accepted
with no marker check, both by `extract_url_from_js` and through
`detail_url_from_row` when the script hint is the only usable one. -/
theorem extract_url_from_js_marker_counterexample :
    extract_url_from_js "go('https://example.com/foo.html')"
        "https://kereso.enkk.hu/" = "https://example.com/foo.html"
      ∧ hasDocMarker "https://example.com/foo.html" = false
      ∧ detail_url_from_row
          [("_detail_onclick", "go('https://example.com/foo.html')")]
          "https://kereso.enkk.hu/" = "https://example.com/foo.html" :=
  ⟨by decide, by decide, by decide⟩

/-! ## Claim theorem: truncation classification (C1) -/

/-- **C1**.  For every processed term (name input present, slider solved or
manual assist allowed, search submitted), the explorer classifies it as
truncated exactly when `rowCount` reaches `splitThreshold` or a known
reported total exceeds `rowCount`; when truncated below the depth bound it
enqueues `term + c` for every (deduplicated) alphabet character and
discards the rows — collected and overflows untouched; when truncated at
the depth bound it appends the Overflow Entry
`(term, rowCount, reportedTotal)` and still merges the rows; otherwise it
merges the rows with no overflow entry. -/
theorem stepTerm_classification (cfg : Config) (e : TermEnv) (term : Term)
    (st : RunState) (hname : e.nameFieldPresent = true)
    (hslider : e.sliderSolved = true ∨ cfg.allowManualSlider = true)
    (hclick : e.clickSearchOk = true) :
    (truncFlag cfg e.rowCount e.totalHits = true ↔
      cfg.splitThreshold ≤ (e.rowCount : Int)
        ∨ ∃ n, e.totalHits = some n ∧ (e.rowCount : Int) < (n : Int))
    ∧ (truncFlag cfg e.rowCount e.totalHits = true →
        ((term.length : Int) < cfg.maxDepth) →
        stepTerm cfg e term st = Except.ok { st with
          queue := st.queue ++ (alpha cfg).map (fun c => term ++ [c]),
          enqueuedLog := st.enqueuedLog ++ (alpha cfg).map (fun c => term ++ [c]) })
    ∧ (truncFlag cfg e.rowCount e.totalHits = true →
        ¬((term.length : Int) < cfg.maxDepth) →
        ∃ st1, stepTerm cfg e term st = Except.ok st1
          ∧ st1.queue = st.queue
          ∧ st1.enqueuedLog = st.enqueuedLog
          ∧ st1.overflows = st.overflows ++ [⟨term, e.rowCount, e.totalHits⟩]
          ∧ st1.collected = mergeStore st.collected
              (e.rows.map (fun r => dictInsert r "_query" (String.mk term))))
    ∧ (truncFlag cfg e.rowCount e.totalHits = false →
        ∃ st1, stepTerm cfg e term st = Except.ok st1
          ∧ st1.queue = st.queue
          ∧ st1.enqueuedLog = st.enqueuedLog
          ∧ st1.overflows = st.overflows
          ∧ st1.collected = mergeStore st.collected
              (e.rows.map (fun r => dictInsert r "_query" (String.mk term)))) := by
  have hsl : ¬(e.sliderSolved = false ∧ cfg.allowManualSlider = false) := by
    rcases hslider with h | h <;> simp [h]
  have hck : ¬(e.clickSearchOk = false) := by simp [hclick]
  refine ⟨?_, ?_, ?_, ?_⟩
  · cases hth : e.totalHits with
    | none => simp [truncFlag, hth]
    | some n =>
      simp [truncFlag, hth]
  · intro ht hd
    unfold stepTerm fill_name
    rw [if_pos hname]
    dsimp only
    rw [if_neg hsl, if_neg hck, if_pos ⟨ht, hd⟩]
  · intro ht hd
    unfold stepTerm fill_name
    rw [if_pos hname]
    dsimp only
    rw [if_neg hsl, if_neg hck, if_neg (by tauto), if_pos ht]
    exact ⟨_, rfl, rfl, rfl, rfl, mergeRows_eq_mergeStore _ _⟩
  · intro ht
    unfold stepTerm fill_name
    rw [if_pos hname]
    dsimp only
    rw [if_neg hsl, if_neg hck, if_neg (by simp [ht]), if_neg (by simp [ht])]
    exact ⟨_, rfl, rfl, rfl, rfl, mergeRows_eq_mergeStore _ _⟩

/-- A sample configuration for concrete runs of the explorer. -/
def cfgSample : Config where
  alphabet := ['a', 'b']
  maxDepth := 2
  splitThreshold := 2
  allowManualSlider := true
  downloadPdfs := false
  maxPdfsPerQuery := 0

/-- A sample per-term oracle reporting five rows (over the threshold). -/
def termEnvBusy : TermEnv where
  nameFieldPresent := true
  sliderSolved := true
  clickSearchOk := true
  rows := []
  rowCount := 5
  totalHits := none
  pdfResult := fun _ => (false, "x")

theorem stepTerm_classification_witness :
    stepTerm cfgSample termEnvBusy ['a'] (initState cfgSample)
      = Except.ok { initState cfgSample with
          queue := (initState cfgSample).queue
            ++ (alpha cfgSample).map (fun c => ['a'] ++ [c]),
          enqueuedLog := (initState cfgSample).enqueuedLog
            ++ (alpha cfgSample).map (fun c => ['a'] ++ [c]) } :=
  (stepTerm_classification cfgSample termEnvBusy ['a'] (initState cfgSample)
    rfl (Or.inl rfl) rfl).2.1 (by decide) (by decide)

/-! ## Claim theorem: depth cap and termination (C7) -/

theorem wt_pos (cfg : Config) (t : Term) : 1 ≤ wt cfg t :=
  Nat.one_le_iff_ne_zero.mpr (Nat.pos_iff_ne_zero.mp
    (pow_pos (Nat.succ_pos _) _))

theorem potential_cons (cfg : Config) (t : Term) (q : List Term) :
    potential cfg (t :: q) = wt cfg t + potential cfg q := by
  simp [potential]

theorem potential_append (cfg : Config) (a b : List Term) :
    potential cfg (a ++ b) = potential cfg a + potential cfg b := by
  simp [potential]

theorem potential_children (cfg : Config) (term : Term) :
    potential cfg ((alpha cfg).map (fun c => term ++ [c]))
      = (alpha cfg).length
          * ((alpha cfg).length + 1) ^ (depthBound cfg + 1 - (term.length + 1)) := by
  unfold potential
  rw [List.map_map]
  have hconst : (alpha cfg).map (wt cfg ∘ fun c => term ++ [c])
      = List.replicate (alpha cfg).length
          (((alpha cfg).length + 1) ^ (depthBound cfg + 1 - (term.length + 1))) := by
    rw [List.eq_replicate_iff]
    refine ⟨by simp, ?_⟩
    intro x hx
    rcases List.mem_map.mp hx with ⟨c, _, rfl⟩
    simp [wt, Function.comp]
  rw [hconst, List.sum_replicate, smul_eq_mul]

theorem stepTerm_queue_log (cfg : Config) (e : TermEnv) (term : Term)
    (st st1 : RunState) (h : stepTerm cfg e term st = Except.ok st1) :
    (st1.queue = st.queue ∧ st1.enqueuedLog = st.enqueuedLog)
      ∨ (((term.length : Int) < cfg.maxDepth)
          ∧ st1.queue = st.queue ++ (alpha cfg).map (fun c => term ++ [c])
          ∧ st1.enqueuedLog
              = st.enqueuedLog ++ (alpha cfg).map (fun c => term ++ [c])) := by
  unfold stepTerm fill_name at h
  by_cases hname : e.nameFieldPresent = true
  · rw [if_pos hname] at h
    dsimp only at h
    by_cases hsl : e.sliderSolved = false ∧ cfg.allowManualSlider = false
    · rw [if_pos hsl] at h
      cases h
      exact Or.inl ⟨rfl, rfl⟩
    · rw [if_neg hsl] at h
      by_cases hck : e.clickSearchOk = false
      · rw [if_pos hck] at h
        cases h
      · rw [if_neg hck] at h
        by_cases htr : truncFlag cfg e.rowCount e.totalHits = true
            ∧ ((term.length : Int) < cfg.maxDepth)
        · rw [if_pos htr] at h
          cases h
          exact Or.inr ⟨htr.2, rfl, rfl⟩
        · rw [if_neg htr] at h
          cases h
          left
          by_cases hov : truncFlag cfg e.rowCount e.totalHits = true <;>
            simp [hov]
  · rw [if_neg hname] at h
    cases h

theorem runLoop_sound (cfg : Config) (env : Term → TermEnv) :
    ∀ (fuel : Nat) (st : RunState),
      (∀ t ∈ st.queue, t.length ≤ depthBound cfg) →
      (∀ t ∈ st.enqueuedLog, t.length ≤ depthBound cfg) →
      potential cfg st.queue ≤ fuel →
      runLoop cfg env fuel st ≠ none
        ∧ ∀ res, runLoop cfg env fuel st = some (Except.ok res) →
            ∀ t ∈ res.enqueuedLog, t.length ≤ depthBound cfg := by
  intro fuel
  induction fuel with
  | zero =>
    intro st hq hl hpot
    have hq0 : st.queue = [] := by
      cases hqe : st.queue with
      | nil => rfl
      | cons t rest =>
        exfalso
        rw [hqe, potential_cons] at hpot
        have := wt_pos cfg t
        omega
    rw [runLoop, if_pos hq0]
    refine ⟨by simp, ?_⟩
    intro res hres
    have : st = res := by
      injection hres with h1
      injection h1
    exact this ▸ hl
  | succ fuel ih =>
    intro st hq hl hpot
    rw [runLoop]
    cases hqe : st.queue with
    | nil =>
      refine ⟨by simp, ?_⟩
      intro res hres
      have : st = res := by
        injection hres with h1
        injection h1
      exact this ▸ hl
    | cons term rest =>
      dsimp only
      rw [hqe, potential_cons] at hpot
      have hwt := wt_pos cfg term
      have hterm : term.length ≤ depthBound cfg := hq term (by rw [hqe]; simp)
      have hrest : ∀ t ∈ rest, t.length ≤ depthBound cfg := by
        intro t ht
        exact hq t (by rw [hqe]; simp [ht])
      by_cases hv : term ∈ st.visited
      · rw [if_pos hv]
        refine ih { st with queue := rest } hrest hl ?_
        show potential cfg rest ≤ fuel
        omega
      · rw [if_neg hv]
        cases hstep : stepTerm cfg (env term) term
            { st with queue := rest, visited := term :: st.visited } with
        | error msg =>
          refine ⟨by simp, ?_⟩
          intro res hres
          simp at hres
        | ok st1 =>
          rcases stepTerm_queue_log cfg (env term) term _ st1 hstep with
            ⟨hq1, hl1⟩ | ⟨hdep, hq1, hl1⟩ <;> dsimp only at hq1 hl1
          · refine ih st1 ?_ ?_ ?_
            · rw [hq1]; exact hrest
            · rw [hl1]; exact hl
            · rw [hq1]
              show potential cfg rest ≤ fuel
              omega
          · have hchild : term.length + 1 ≤ depthBound cfg := by
              unfold depthBound
              omega
            refine ih st1 ?_ ?_ ?_
            · rw [hq1]
              intro t ht
              rcases List.mem_append.mp ht with ht | ht
              · exact hrest t ht
              · rcases List.mem_map.mp ht with ⟨c, _, rfl⟩
                simpa using hchild
            · rw [hl1]
              intro t ht
              rcases List.mem_append.mp ht with ht | ht
              · exact hl t ht
              · rcases List.mem_map.mp ht with ⟨c, _, rfl⟩
                simpa using hchild
            · rw [hq1, potential_append, potential_children]
              have hx : 1 ≤ ((alpha cfg).length + 1)
                  ^ (depthBound cfg + 1 - (term.length + 1)) :=
                Nat.one_le_iff_ne_zero.mpr (Nat.pos_iff_ne_zero.mp
                  (pow_pos (Nat.succ_pos _) _))
              have hsplit : wt cfg term
                  = (alpha cfg).length
                      * ((alpha cfg).length + 1)
                          ^ (depthBound cfg + 1 - (term.length + 1))
                    + ((alpha cfg).length + 1)
                        ^ (depthBound cfg + 1 - (term.length + 1)) := by
                unfold wt
                rw [show depthBound cfg + 1 - term.length
                    = (depthBound cfg + 1 - (term.length + 1)) + 1 from by omega,
                  pow_succ]
                ring
              rw [hsplit] at hpot
              omega

/-- **C7** (amended).  For every configuration and driver oracle the
explorer terminates — the queue potential is sufficient fuel, so `run`
never returns `none` — and every term ever enqueued (the ghost log) has
length at most `max 1 maxDepth` (`depthBound`): expansion only happens
strictly below `maxDepth` and adds one character, while seeds have
length 1 even when `maxDepth < 1`, which is why the cap is
`max 1 maxDepth` rather than `maxDepth` (see
`enqueued_term_exceeds_maxDepth_counterexample`). -/
theorem explorer_terminates_with_depth_cap (cfg : Config)
    (env : Term → TermEnv) :
    run cfg env ≠ none
      ∧ ∀ st, run cfg env = some (Except.ok st) →
          ∀ t ∈ st.enqueuedLog, t.length ≤ depthBound cfg := by
  have hseed : ∀ t ∈ seeds cfg, t.length ≤ depthBound cfg := by
    intro t ht
    rcases List.mem_map.mp ht with ⟨c, _, rfl⟩
    simp [depthBound]
  exact runLoop_sound cfg env (potential cfg (seeds cfg)) (initState cfg)
    hseed hseed le_rfl

/-- Configuration with a depth bound of zero: the seeds already exceed it. -/
def cfgDepth0 : Config where
  alphabet := ['a']
  maxDepth := 0
  splitThreshold := 100
  allowManualSlider := true
  downloadPdfs := false
  maxPdfsPerQuery := 0

/-- A per-term oracle with an empty, untruncated result set. -/
def termEnvQuiet : TermEnv where
  nameFieldPresent := true
  sliderSolved := true
  clickSearchOk := true
  rows := []
  rowCount := 0
  totalHits := none
  pdfResult := fun _ => (true, "ok")

/-- The trivial driver oracle. -/
def envQuiet : Term → TermEnv := fun _ => termEnvQuiet

/-- The final state of `run cfgDepth0 envQuiet`. -/
def stDepth0Final : RunState where
  queue := []
  visited := [['a']]
  collected := []
  overflows := []
  enqueuedLog := [['a']]
  pdfOk := 0
  pdfFail := 0

/-- **C7** (counterexample).  With `maxDepth = 0`, the seeded
single-character term `"a"` is enqueued although its length exceeds
`maxDepth` (the run still terminates). -/
theorem enqueued_term_exceeds_maxDepth_counterexample :
    run cfgDepth0 envQuiet = some (Except.ok stDepth0Final)
      ∧ ['a'] ∈ stDepth0Final.enqueuedLog
      ∧ ¬(((['a'] : Term).length : Int) ≤ cfgDepth0.maxDepth) :=
  ⟨rfl, by simp [stDepth0Final], by decide⟩

theorem explorer_terminates_with_depth_cap_witness :
    run cfgDepth0 envQuiet ≠ none
      ∧ (['a'] : Term).length ≤ depthBound cfgDepth0 :=
  ⟨(explorer_terminates_with_depth_cap cfgDepth0 envQuiet).1,
    (explorer_terminates_with_depth_cap cfgDepth0 envQuiet).2 stDepth0Final rfl
      ['a'] (by simp [stDepth0Final])⟩

/-! ## Claim theorem: two-tier failure propagation (C8) -/

/-- The PDF-independent projection of a term oracle. -/
def TermEnv.core (e : TermEnv) :
    Bool × Bool × Bool × List Row × Nat × Option Nat :=
  (e.nameFieldPresent, e.sliderSolved, e.clickSearchOk, e.rows, e.rowCount,
    e.totalHits)

/-- The PDF-counter-free projection of the loop state. -/
def RunState.core (st : RunState) :
    List Term × List Term × List (String × Row) × List Overflow × List Term :=
  (st.queue, st.visited, st.collected, st.overflows, st.enqueuedLog)

theorem stepTerm_core_congr (cfg : Config) (term : Term)
    (e1 e2 : TermEnv) (st1 st2 : RunState)
    (he : e1.core = e2.core) (hst : st1.core = st2.core) :
    match stepTerm cfg e1 term st1, stepTerm cfg e2 term st2 with
    | Except.error m1, Except.error m2 => m1 = m2
    | Except.ok r1, Except.ok r2 => r1.core = r2.core
    | _, _ => False := by
  obtain ⟨n1, s1, c1, r1, rc1, th1, p1⟩ := e1
  obtain ⟨n2, s2, c2, r2, rc2, th2, p2⟩ := e2
  obtain ⟨q1, v1, col1, ov1, log1, ok1, f1⟩ := st1
  obtain ⟨q2, v2, col2, ov2, log2, ok2, f2⟩ := st2
  simp only [TermEnv.core, RunState.core, Prod.mk.injEq] at he hst
  obtain ⟨rfl, rfl, rfl, rfl, rfl, rfl⟩ := he
  obtain ⟨rfl, rfl, rfl, rfl, rfl⟩ := hst
  unfold stepTerm fill_name
  dsimp only
  by_cases hname : n1 = true
  · simp only [if_pos hname]
    by_cases hsl : s1 = false ∧ cfg.allowManualSlider = false
    · simp only [if_pos hsl]
      simp [RunState.core]
    · simp only [if_neg hsl]
      by_cases hck : c1 = false
      · simp only [if_pos hck]
      · simp only [if_neg hck]
        by_cases htr : truncFlag cfg rc1 th1 = true
            ∧ ((term.length : Int) < cfg.maxDepth)
        · simp only [if_pos htr]
          simp [RunState.core]
        · simp only [if_neg htr]
          by_cases hov : truncFlag cfg rc1 th1 = true <;>
            simp [hov, RunState.core]
  · simp only [if_neg hname]

theorem runLoop_core_congr (cfg : Config) (env1 env2 : Term → TermEnv)
    (he : ∀ t, (env1 t).core = (env2 t).core) :
    ∀ (fuel : Nat) (st1 st2 : RunState), st1.core = st2.core →
      match runLoop cfg env1 fuel st1, runLoop cfg env2 fuel st2 with
      | none, none => True
      | some (Except.error m1), some (Except.error m2) => m1 = m2
      | some (Except.ok r1), some (Except.ok r2) => r1.core = r2.core
      | _, _ => False := by
  intro fuel
  induction fuel with
  | zero =>
    intro st1 st2 hst
    obtain ⟨q1, v1, col1, ov1, log1, ok1, f1⟩ := st1
    obtain ⟨q2, v2, col2, ov2, log2, ok2, f2⟩ := st2
    simp only [RunState.core, Prod.mk.injEq] at hst
    obtain ⟨rfl, rfl, rfl, rfl, rfl⟩ := hst
    rw [runLoop, runLoop]
    dsimp only
    by_cases hq : q1 = []
    · simp only [if_pos hq]
      simp [RunState.core]
    · simp only [if_neg hq]
  | succ fuel ih =>
    intro st1 st2 hst
    obtain ⟨q1, v1, col1, ov1, log1, ok1, f1⟩ := st1
    obtain ⟨q2, v2, col2, ov2, log2, ok2, f2⟩ := st2
    simp only [RunState.core, Prod.mk.injEq] at hst
    obtain ⟨rfl, rfl, rfl, rfl, rfl⟩ := hst
    rw [runLoop, runLoop]
    cases q1 with
    | nil =>
      dsimp only
      simp [RunState.core]
    | cons term rest =>
      dsimp only
      by_cases hv : term ∈ v1
      · simp only [if_pos hv]
        exact ih _ _ (by simp [RunState.core])
      · simp only [if_neg hv]
        have hcongr := stepTerm_core_congr cfg term (env1 term) (env2 term)
          ⟨rest, term :: v1, col1, ov1, log1, ok1, f1⟩
          ⟨rest, term :: v1, col1, ov1, log1, ok2, f2⟩ (he term)
          (by simp [RunState.core])
        cases h1 : stepTerm cfg (env1 term) term
            ⟨rest, term :: v1, col1, ov1, log1, ok1, f1⟩ with
        | error m1 =>
          cases h2 : stepTerm cfg (env2 term) term
              ⟨rest, term :: v1, col1, ov1, log1, ok2, f2⟩ with
          | error m2 =>
            rw [h1, h2] at hcongr
            simp only [] at hcongr
            simpa using hcongr
          | ok r2 =>
            rw [h1, h2] at hcongr
            simp at hcongr
        | ok r1 =>
          cases h2 : stepTerm cfg (env2 term) term
              ⟨rest, term :: v1, col1, ov1, log1, ok2, f2⟩ with
          | error m2 =>
            rw [h1, h2] at hcongr
            simp at hcongr
          | ok r2 =>
            rw [h1, h2] at hcongr
            simp only [] at hcongr
            exact ih r1 r2 hcongr

/-- **C8**.  Failure propagation is two-tiered.  (1) When the Driver cannot
locate the search input for the next unvisited term, the raised error
aborts the whole run (`runLoop` returns that fatal error).  (2) A
`PlaywrightError` raised while retrieving one record's artifact (here: the
navigation to the detail URL failing) is caught at the retrieval boundary
and reduced to `(false, "playwright_hiba")`.  (3) Per-record outcomes never
influence the term loop: two runs whose oracles agree on everything except
the per-row PDF results produce the same termination/abort behaviour and
the same queue, visited set, record store, overflow list and enqueue log. -/
theorem failure_propagation_two_tier :
    (∀ (cfg : Config) (env : Term → TermEnv) (fuel : Nat) (st : RunState)
        (term : Term) (rest : List Term),
        st.queue = term :: rest → term ∉ st.visited →
        (env term).nameFieldPresent = false →
        runLoop cfg env (fuel + 1) st
          = some (Except.error "Nem talaltam nevet fogado input mezot."))
    ∧ (∀ (env : DlEnv) (row : Row) (dir : String) (fb : Bool),
        env.fsExists (build_pdf_path dir row
          (if detail_url_from_row row env.listingUrl = "" then "row_click_fallback"
           else detail_url_from_row row env.listingUrl)) = false →
        detail_url_from_row row env.listingUrl ≠ "" →
        env.gotoOutcome = Except.error () →
        (download_pdf_for_row env row dir fb).1 = (false, "playwright_hiba"))
    ∧ ∀ (cfg : Config) (env1 env2 : Term → TermEnv),
        (∀ t, (env1 t).core = (env2 t).core) →
        match run cfg env1, run cfg env2 with
        | none, none => True
        | some (Except.error m1), some (Except.error m2) => m1 = m2
        | some (Except.ok r1), some (Except.ok r2) => r1.core = r2.core
        | _, _ => False := by
  refine ⟨?_, ?_, ?_⟩
  · intro cfg env fuel st term rest hq hv hname
    rw [runLoop, hq]
    dsimp only
    rw [if_neg hv]
    have hstep : stepTerm cfg (env term) term
        { st with queue := rest, visited := term :: st.visited }
        = Except.error "Nem talaltam nevet fogado input mezot." := by
      unfold stepTerm fill_name
      rw [if_neg (by simp [hname])]
    rw [hstep]
  · intro env row dir fb hne hurl hgoto
    unfold download_pdf_for_row
    dsimp only
    rw [if_neg (by simp [hne]), if_pos hurl, hgoto]
  · intro cfg env1 env2 he
    exact runLoop_core_congr cfg env1 env2 he _ _ _ rfl

/-- A per-term oracle with no name input field. -/
def termEnvNoName : TermEnv where
  nameFieldPresent := false
  sliderSolved := true
  clickSearchOk := true
  rows := []
  rowCount := 0
  totalHits := none
  pdfResult := fun _ => (true, "ok")

/-- The driver oracle that never finds the name input. -/
def envNoName : Term → TermEnv := fun _ => termEnvNoName

/-- A one-letter configuration for concrete runs. -/
def cfgTiny : Config where
  alphabet := ['a']
  maxDepth := 1
  splitThreshold := 100
  allowManualSlider := true
  downloadPdfs := false
  maxPdfsPerQuery := 0

/-- A retrieval oracle whose navigation raises. -/
def dlEnvGotoErr : DlEnv where
  listingUrl := "https://kereso.enkk.hu/"
  fsExists := fun _ => false
  gotoOutcome := Except.error ()
  openOutcome := Except.ok OpenRes.popup
  extractRaises := false
  extractEnv := extractEnvAllFail

theorem failure_propagation_two_tier_witness :
    runLoop cfgTiny envNoName 1 (initState cfgTiny)
        = some (Except.error "Nem talaltam nevet fogado input mezot.")
      ∧ (download_pdf_for_row dlEnvGotoErr
            [("_detail_url", "https://example.com/x.pdf")] "d" false).1
          = (false, "playwright_hiba")
      ∧ (match run cfgTiny envNoName, run cfgTiny envNoName with
         | none, none => True
         | some (Except.error m1), some (Except.error m2) => m1 = m2
         | some (Except.ok r1), some (Except.ok r2) => r1.core = r2.core
         | _, _ => False) := by
  refine ⟨?_, ?_, ?_⟩
  · exact failure_propagation_two_tier.1 cfgTiny envNoName 0 (initState cfgTiny)
      ['a'] [] rfl (by simp [initState]) rfl
  · exact failure_propagation_two_tier.2.1 dlEnvGotoErr
      [("_detail_url", "https://example.com/x.pdf")] "d" false rfl (by decide) rfl
  · exact failure_propagation_two_tier.2.2 cfgTiny envNoName envNoName
      (fun t => rfl)

end Scraper

namespace Scraper

/-- Validation of the SHA-1 embedding against the standard test vector
`sha1("abc")`. -/
theorem sha1Hex_abc :
    sha1Hex (strToBytes "abc") = "a9993e364706816aba3e25717850c26c9cd0d89d" := by
  set_option maxRecDepth 20000 in decide

end Scraper
